import Mathlib

/-!
Verification development for the route-link core of the SBSHack2026 repository
(backend/services/route_service.py, link_service.py, predictor_service.py,
incident_service.py and correlated_data/correlate_traffic_data.py).

The Python code is shallowly embedded:

* numeric values (Python floats) are modelled as rationals `ℚ`: every claim
  under scrutiny is about control flow, comparisons, ordering and selection,
  none about floating-point rounding;
* Python dictionary fields that may be absent are `Option`;
* raw field values that may be `None`, a numeric string, or a non-numeric
  string are modelled by `PyVal`;
* fallible code is embedded in `Except PyErr`, with each `try/except` clause
  translated by matching on the error kind it catches, so that an uncaught
  exception kind propagates exactly as in Python;
* the transcendental geometric primitives (haversine distance, shapely
  projection of a point onto a polyline, equirectangular point-to-segment
  distance) are taken as explicit function parameters of the embedded
  operations; every theorem below is uniform in these parameters, except
  where a property of the real function (symmetry of the haversine formula)
  is stated as an explicit hypothesis;
* shapely `point.distance(segment)` returns the Euclidean point-to-segment
  distance in coordinate space; the code only ever compares such distances
  with `<`, and the square root is strictly monotone on nonnegatives, so the
  embedding computes with squared distances (`distSqPointSeg`), which keeps
  every definition executable and every comparison decidable while selecting
  exactly the same links.
-/

namespace SBS

/-- Kinds of Python exception relevant to the embedded code. -/
inductive PyErr where
  | typeError
  | valueError
  | keyError
deriving DecidableEq, Repr

/-- A raw Python value stored under a dictionary key: `None`, a number,
a string that parses as a number, or a string that does not. -/
inductive PyVal where
  | none
  | num (q : ℚ)
  | strNum (q : ℚ)
  | strBad
deriving DecidableEq, Repr

/-- Python `float(x)` applied to the result of a dictionary access:
a missing key raises `KeyError`, `float(None)` raises `TypeError`,
a non-numeric string raises `ValueError`. -/
def pyFloat : Option PyVal → Except PyErr ℚ
  | Option.none => .error .keyError
  | some PyVal.none => .error .typeError
  | some (PyVal.num q) => .ok q
  | some (PyVal.strNum q) => .ok q
  | some PyVal.strBad => .error .valueError

/-- Python truthiness of an optional raw value (used by `or` chains):
`None` and `0` are falsy, nonempty strings are truthy. -/
def pyTruthy : Option PyVal → Bool
  | Option.none => false
  | some PyVal.none => false
  | some (PyVal.num q) => decide (q ≠ 0)
  | some (PyVal.strNum _) => true
  | some PyVal.strBad => true

/-- A link record as it flows through the services: identifier, four raw
coordinate fields, route order, adjacency id lists and road name.
`LinkID` is modelled as a `String`, with `""` playing the role of a missing
or empty (falsy) identifier, matching the pervasive
`str(link.get("LinkID", ""))` idiom of the source. -/
structure Link where
  LinkID : String := ""
  StartLat : Option PyVal := Option.none
  StartLon : Option PyVal := Option.none
  EndLat : Option PyVal := Option.none
  EndLon : Option PyVal := Option.none
  order : Option Nat := Option.none
  inbound_link_ids : List String := []
  outbound_link_ids : List String := []
  RoadName : Option String := Option.none
deriving DecidableEq, Repr

/-- A two-point shapely LineString in `(lon, lat)` coordinate order, as built
by `create_link_linestring`. -/
structure Segment where
  p1 : ℚ × ℚ
  p2 : ℚ × ℚ
deriving DecidableEq, Repr

/-- The four coordinate reads of `create_link_linestring`, in source order. -/
def linkCoords (link : Link) : Except PyErr (ℚ × ℚ × ℚ × ℚ) := do
  let slat ← pyFloat link.StartLat
  let slon ← pyFloat link.StartLon
  let elat ← pyFloat link.EndLat
  let elon ← pyFloat link.EndLon
  pure (slat, slon, elat, elon)

/-- Embedding of `create_link_linestring` (route_service.py lines 101-110 and
the identical copy in link_service.py lines 10-19): reads the four coordinate
fields with `float(...)`, catches only `ValueError` and `KeyError` (returning
`None`), and therefore lets a `TypeError` — raised by `float(None)` —
propagate to the caller. -/
def create_link_linestring (link : Link) : Except PyErr (Option Segment) :=
  match linkCoords link with
  | .ok (slat, slon, elat, elon) => .ok (some ⟨(slon, slat), (elon, elat)⟩)
  | .error .valueError => .ok Option.none
  | .error .keyError => .ok Option.none
  | .error e => .error e

/-- Embedding of `find_links_in_buffer` (route_service.py lines 113-134).
The pyproj/shapely corridor construction and the `intersects` test against the
buffered route are transcendental geometry; they are abstracted into the
parameters `routeEmpty` (the `route_linestring is None or is_empty` guard) and
`corridorHit` (the predicate `link_line.intersects(buffered_route)`).
Each link is passed through `create_link_linestring`; a `None` segment is
skipped, but an uncaught exception from it aborts the whole loop, as in
Python. The scan is written as structural recursion producing the matches in
traversal order; it is the `for` loop of the source, with the first raised
error propagated. -/
def bufferLoop (corridorHit : Segment → Bool) : List Link → Except PyErr (List Link)
  | [] => .ok []
  | link :: rest =>
    match create_link_linestring link with
    | .error e => .error e
    | .ok Option.none => bufferLoop corridorHit rest
    | .ok (some seg) =>
      match bufferLoop corridorHit rest with
      | .error e => .error e
      | .ok r => if corridorHit seg then .ok (link :: r) else .ok r

def find_links_in_buffer (corridorHit : Segment → Bool) (routeEmpty : Bool)
    (all_links : List Link) : Except PyErr (List Link) :=
  if routeEmpty then .ok [] else bufferLoop corridorHit all_links

/-- Squared Euclidean point-to-segment distance in the unprojected coordinate
plane, with points in `(lon, lat)` order. This is the square of the value
shapely returns for `point.distance(line)` on a two-point LineString: the
closest point is found by projecting onto the segment and clamping the
parameter to `[0, 1]`. `get_current_link` only compares these distances with
`<`, and squaring is strictly monotone on nonnegative reals, so selection by
squared distance selects exactly the same link. -/
def distSqPointSeg (p : ℚ × ℚ) (s : Segment) : ℚ :=
  let dx := s.p2.1 - s.p1.1
  let dy := s.p2.2 - s.p1.2
  if dx = 0 ∧ dy = 0 then (p.1 - s.p1.1) ^ 2 + (p.2 - s.p1.2) ^ 2
  else
    let t := ((p.1 - s.p1.1) * dx + (p.2 - s.p1.2) * dy) / (dx ^ 2 + dy ^ 2)
    let t := max 0 (min 1 t)
    (p.1 - (s.p1.1 + t * dx)) ^ 2 + (p.2 - (s.p1.2 + t * dy)) ^ 2

/-- The segment of a link as seen by `get_current_link`: `some` exactly when
`create_link_linestring` neither raises nor returns `None`. The locator loop
wraps its body in `except Exception: continue`, so both the `None` result and
any exception lead to the link being skipped. -/
def validSeg (link : Link) : Option Segment :=
  match create_link_linestring link with
  | .ok (some seg) => some seg
  | _ => Option.none

/-- The candidate pool of the locator: each link with usable geometry paired
with the squared distance from the fix (point `(lon, lat)`) to its segment. -/
def locatorCands (lat lon : ℚ) (links : List Link) : List (Link × ℚ) :=
  links.filterMap fun link =>
    (validSeg link).map fun seg => (link, distSqPointSeg (lon, lat) seg)

/-- First occurrence of the minimal key in a keyed list: the element kept by a
scan that replaces the best-so-far only on a strictly smaller key. -/
def firstMin {α : Type} : List (α × ℚ) → Option (α × ℚ)
  | [] => Option.none
  | c :: cs =>
    match firstMin cs with
    | Option.none => some c
    | some c' => if c'.2 < c.2 then some c' else some c

/-- The accumulator scan of `get_current_link`: `min_distance` starts at
`inf` (modelled by the `Option.none` accumulator) and is replaced only when a
strictly smaller distance appears, so the first-seen link wins ties. -/
def locatorScan {α : Type} (acc : Option (α × ℚ)) : List (α × ℚ) → Option (α × ℚ)
  | [] => acc
  | c :: cs =>
    locatorScan
      (match acc with
       | Option.none => some c
       | some c' => if c.2 < c'.2 then some c else some c') cs

/-- Embedding of `get_current_link` (link_service.py lines 22-76): scan every
link, skip those whose linestring is `None` or raises (the loop body is
guarded by `except Exception: continue`), and keep the link at strictly
minimal distance from the fix. The ranked top-5 list the function also
assembles is only printed for diagnostics (see `locatorShortlist`); the
returned link is determined by the scan alone. -/
def get_current_link (lat lon : ℚ) (ordered_links : List Link) : Option Link :=
  (locatorScan Option.none (locatorCands lat lon ordered_links)).map (·.1)

/-- The diagnostic shortlist of `get_current_link`: all candidate distances
sorted ascending, truncated to the top 5. It is printed and discarded; no
other definition in this file reads it. -/
def locatorShortlist (lat lon : ℚ) (ordered_links : List Link) : List (Link × ℚ) :=
  ((locatorCands lat lon ordered_links).mergeSort
    (fun a b => decide (a.2 ≤ b.2))).take 5

/-- The per-route data structure built by `process_route`: the ordered link
list and the `LinkID → link entry` index (a Python dict, modelled as an
association list with distinct keys looked up by first match). -/
structure RouteData where
  ordered_links : List Link := []
  link_index : List (String × Link) := []
deriving DecidableEq, Repr

/-- Python `link_index[lid]` / `lid in link_index`. -/
def lookupIndex (idx : List (String × Link)) (lid : String) : Option Link :=
  (idx.find? fun p => p.1 = lid).map (·.2)

/-- The `current_order` read of `get_links_for_analysis`:
`current_link.get("order", -1)` as an integer. The `order` entries written by
`process_route` are list positions, hence naturals in the model. -/
def currentOrder (link : Link) : Int :=
  match link.order with
  | some n => (n : Int)
  | Option.none => -1

/-- State of the window assembly: the accumulating link list and the
`link_ids_seen` set (kept as a list in insertion order). -/
abbrev WindowState := List Link × List String

/-- The link at list position `current_order + i + 1` of the ordered links,
when that position exists (`next_order < len(ordered_links)` in the source;
`order` values are naturals, so the position is never negative). -/
def nextAt (current_link : Link) (rd : RouteData) (i : Nat) : Option Link :=
  let nextOrder : Int := currentOrder current_link + (i + 1)
  if nextOrder < (rd.ordered_links.length : Int) then
    rd.ordered_links.get? nextOrder.toNat
  else Option.none

/-- Adding one neighbour id inside the third loop of
`get_links_for_analysis`: appended only when unseen and resolvable through the
index, and only then marked seen. -/
def addNeighbor (idx : List (String × Link)) (st : WindowState) (lid : String) :
    WindowState :=
  if lid ∉ st.2 then
    match lookupIndex idx lid with
    | some entry => (st.1 ++ [entry], st.2 ++ [lid])
    | Option.none => st
  else st

/-- One iteration of the second loop of `get_links_for_analysis`: the link at
offset `i + 1` past the current order is appended when it exists and its id is
nonempty and unseen. -/
def addNext (current_link : Link) (rd : RouteData) (st : WindowState) (i : Nat) :
    WindowState :=
  match nextAt current_link rd i with
  | some next_link =>
    if next_link.LinkID ≠ "" ∧ next_link.LinkID ∉ st.2 then
      (st.1 ++ [next_link], st.2 ++ [next_link.LinkID])
    else st
  | Option.none => st

/-- One iteration of the third loop of `get_links_for_analysis`: all inbound
ids of one base link are offered to `addNeighbor`, then all outbound ids. -/
def addLinkNeighbors (idx : List (String × Link)) (st : WindowState)
    (link : Link) : WindowState :=
  link.outbound_link_ids.foldl (addNeighbor idx)
    (link.inbound_link_ids.foldl (addNeighbor idx) st)

/-- Embedding of `get_links_for_analysis` (link_service.py lines 79-131):
add the current link through the index; add the links at list positions
`current_order + 1 .. current_order + num_future_links` with unseen nonempty
ids; then, iterating over a snapshot of that base list, add every unseen
resolvable inbound id and then every unseen resolvable outbound id of each
base link. Since `order` values are naturals, `next_order` is never negative
and Python negative indexing cannot arise. -/
def get_links_for_analysis (current_link : Link) (rd : RouteData)
    (num_future_links : Nat := 3) : List Link :=
  let st0 : WindowState :=
    if current_link.LinkID ≠ "" then
      match lookupIndex rd.link_index current_link.LinkID with
      | some entry => ([entry], [current_link.LinkID])
      | Option.none => ([], [])
    else ([], [])
  let st1 : WindowState :=
    (List.range num_future_links).foldl (addNext current_link rd) st0
  let st2 : WindowState :=
    st1.1.foldl (addLinkNeighbors rd.link_index) st1
  st2.1

/-- First-occurrence deduplication of an id stream, relative to the ids
already seen. -/
def firstDedup (seen : List String) : List String → List String
  | [] => []
  | x :: xs => if x ∈ seen then firstDedup seen xs else x :: firstDedup (x :: seen) xs

/-- First-occurrence deduplication of links keyed by `LinkID`, relative to the
ids already seen. -/
def firstDedupLinks (seen : List String) : List Link → List Link
  | [] => []
  | l :: ls =>
    if l.LinkID ∈ seen then firstDedupLinks seen ls
    else l :: firstDedupLinks (l.LinkID :: seen) ls

/-- The current-link contribution to the analysis window: the index entry for
the current id, when that id is nonempty and resolves. -/
def windowCurrent (current : Link) (rd : RouteData) : List Link :=
  if current.LinkID ≠ "" then
    match lookupIndex rd.link_index current.LinkID with
    | some entry => [entry]
    | Option.none => []
  else []

/-- The id recorded as seen by the current-link step (the current id itself,
under the same condition as `windowCurrent`). -/
def windowCurrentIds (current : Link) (rd : RouteData) : List String :=
  if current.LinkID ≠ "" ∧ (lookupIndex rd.link_index current.LinkID).isSome then
    [current.LinkID]
  else []

/-- The next-link candidates: the links at list positions
`current_order + 1 .. current_order + K` that exist, keeping those with a
nonempty id. -/
def nextCandidates (current : Link) (rd : RouteData) (K : Nat) : List Link :=
  ((List.range K).filterMap (nextAt current rd)).filter fun l => l.LinkID ≠ ""

/-- The base of the analysis window: current entry then deduplicated next
links. -/
def windowBase (current : Link) (rd : RouteData) (K : Nat) : List Link :=
  windowCurrent current rd ++
    firstDedupLinks (windowCurrentIds current rd) (nextCandidates current rd K)

/-- The ids marked seen after the base of the window is assembled. -/
def windowBaseIds (current : Link) (rd : RouteData) (K : Nat) : List String :=
  windowCurrentIds current rd ++
    (firstDedupLinks (windowCurrentIds current rd) (nextCandidates current rd K)).map
      (·.LinkID)

/-- Specification-style description of the analysis window (the amended form
of claim C1): the base links, followed by the index entries of the first
occurrences of the inbound-then-outbound neighbour ids of EVERY base link
(current and each next link) that resolve in the index and are not already in
the base. -/
def windowSpec (current : Link) (rd : RouteData) (K : Nat) : List Link :=
  let base := windowBase current rd K
  base ++
    (firstDedup (windowBaseIds current rd K)
        (base.flatMap fun l => l.inbound_link_ids ++ l.outbound_link_ids)).filterMap
      (lookupIndex rd.link_index)

/-- The id collection described by claim C1 as stated: current link, the
up-to-K next links, and the resolvable inbound/outbound neighbour ids of the
TARGET link only (the first next link if any, else the current link),
deduplicated by id. -/
def windowClaimIds (current : Link) (rd : RouteData) (K : Nat) : List String :=
  let nexts := nextCandidates current rd K
  let target := match nexts with | [] => current | t :: _ => t
  firstDedup []
    (current.LinkID :: nexts.map (·.LinkID) ++
      (target.inbound_link_ids ++ target.outbound_link_ids).filter fun lid =>
        (lookupIndex rd.link_index lid).isSome)

/-- A speed-band observation dictionary as consumed by the predictor service:
the two band key spellings and the four speed key spellings. Band values are
modelled as integers and speed values as rationals, already decoded. -/
structure SpeedData where
  SpeedBand : Option Int := Option.none
  speedband : Option Int := Option.none
  minspeed : Option ℚ := Option.none
  MinimumSpeed : Option ℚ := Option.none
  maxspeed : Option ℚ := Option.none
  MaximumSpeed : Option ℚ := Option.none
deriving DecidableEq, Repr

/-- Python `a or b` over optional integers: `a` is kept only when truthy,
i.e. present and nonzero — a stored `0` falls through to `b`. -/
def orFalsyInt : Option Int → Option Int → Option Int
  | some v, b => if v ≠ 0 then some v else b
  | Option.none, b => b

/-- Python `a or b` over optional rationals (`0.0` is falsy). -/
def orFalsyRat : Option ℚ → Option ℚ → Option ℚ
  | some v, b => if v ≠ 0 then some v else b
  | Option.none, b => b

/-- Embedding of `to_float` (predictor_service.py lines 26-33) on an
already-decoded optional numeric value: `None` becomes the default. -/
def to_float (v : Option ℚ) (default : ℚ := 0) : ℚ := v.getD default

/-- Embedding of `extract_speedband_from_data` (predictor_service.py lines
178-225): take `SpeedBand or speedband` through Python `or` (so a stored `0`
in `SpeedBand` alone is treated as absent); when that chain yields nothing,
infer the band from the midpoint of min/max speed by 10 km/h buckets,
provided the max speed is positive; otherwise report no band. -/
def extract_speedband_from_data (d : SpeedData) : Option Int :=
  match orFalsyInt d.SpeedBand d.speedband with
  | some sb => some sb
  | Option.none =>
    let min_speed := to_float (orFalsyRat d.minspeed d.MinimumSpeed)
    let max_speed := to_float (orFalsyRat d.maxspeed d.MaximumSpeed)
    if 0 < max_speed then
      let avg := (min_speed + max_speed) / 2
      some
        (if avg < 10 then 0
         else if avg < 20 then 1
         else if avg < 30 then 2
         else if avg < 40 then 3
         else if avg < 50 then 4
         else if avg < 60 then 5
         else if avg < 70 then 6
         else if avg < 80 then 7
         else 8)
    else Option.none

/-- Amended specification of the band extraction (claim C7): the direct field
is used exactly when the Python `or` chain over the two band spellings yields
a value; the fallback bucket is the midpoint divided by 10, floored and
clamped to `0..8`, and applies only when the max speed is positive. -/
def extractSpecAmended (d : SpeedData) : Option Int :=
  match orFalsyInt d.SpeedBand d.speedband with
  | some sb => some sb
  | Option.none =>
    let mn := to_float (orFalsyRat d.minspeed d.MinimumSpeed)
    let mx := to_float (orFalsyRat d.maxspeed d.MaximumSpeed)
    if 0 < mx then some (max 0 (min 8 ⌊(mn + mx) / 2 / 10⌋)) else Option.none

/-- The candidate-id list of `build_speedband_history` (predictor_service.py
lines 246-270), in source order: inbound neighbours of the target, the
current id, the target id, the next-link ids, then outbound neighbours of the
target. The `if link_id:` guards on the current, target and next ids are the
Python truthiness tests on the stringified ids. -/
def candidateIds (target current : Link) (next_links : List Link) : List String :=
  target.inbound_link_ids ++
    (if current.LinkID ≠ "" then [current.LinkID] else []) ++
    (if target.LinkID ≠ "" then [target.LinkID] else []) ++
    next_links.filterMap
      (fun l => if l.LinkID ≠ "" then some l.LinkID else Option.none) ++
    target.outbound_link_ids

/-- The deduplication loop of `build_speedband_history` (lines 272-278):
`if lid and lid not in seen` — keeps first occurrences of nonempty ids. -/
def dedupTruthy (seen : List String) : List String → List String
  | [] => []
  | x :: xs =>
    if x ≠ "" ∧ x ∉ seen then x :: dedupTruthy (x :: seen) xs
    else dedupTruthy seen xs

/-- Python dict lookup on the observation map. -/
def lookupBands (speed_bands : List (String × SpeedData)) (lid : String) :
    Option SpeedData :=
  (speed_bands.find? fun p => p.1 = lid).map (·.2)

/-- The collection loop of `build_speedband_history` (lines 280-289): walk
the ordered ids; for each id with an observation and a derivable band, append
the band only when it differs from the last appended value, and stop as soon
as `min_history_length` values are in the history. -/
def collectHistory (speed_bands : List (String × SpeedData))
    (min_history_length : Nat) :
    List String → List Int → List Int
  | [], history => history
  | lid :: rest, history =>
    match lookupBands speed_bands lid with
    | Option.none => collectHistory speed_bands min_history_length rest history
    | some d =>
      match extract_speedband_from_data d with
      | Option.none => collectHistory speed_bands min_history_length rest history
      | some sb =>
        if history = [] ∨ history.getLast? ≠ some sb then
          let h := history ++ [sb]
          if min_history_length ≤ h.length then h
          else collectHistory speed_bands min_history_length rest h
        else collectHistory speed_bands min_history_length rest history

/-- Embedding of `build_speedband_history` (predictor_service.py lines
228-299): collect bands over the deduplicated candidate ids, then pad with
the last collected value up to `min_history_length`, defaulting the whole
sequence to `3` when nothing was collected. -/
def build_speedband_history (target current : Link) (next_links : List Link)
    (speed_bands : List (String × SpeedData)) (min_history_length : Nat := 5) :
    List Int :=
  let history :=
    collectHistory speed_bands min_history_length
      (dedupTruthy [] (candidateIds target current next_links)) []
  match history with
  | [] => List.replicate min_history_length 3
  | h :: t =>
    (h :: t) ++
      List.replicate (min_history_length - (h :: t).length) ((h :: t).getLast (by simp))

/-- The priority id walk exactly as claim C3 words it: target inbound
neighbours in stored order, then the current link, then the target link, then
each next link in route order, then target outbound neighbours — deduplicated
preserving first occurrence. -/
def claimOrderedIds (target current : Link) (next_links : List Link) : List String :=
  firstDedup []
    (target.inbound_link_ids ++ [current.LinkID] ++ [target.LinkID] ++
      next_links.map (·.LinkID) ++ target.outbound_link_ids)

/-- The band stream of the claim-C3 walk: each candidate id with an available
observation contributes its derived band. -/
def bandStream (speed_bands : List (String × SpeedData)) (ids : List String) :
    List Int :=
  ids.filterMap fun lid => (lookupBands speed_bands lid).bind extract_speedband_from_data

/-- The default route buffer tolerance, `ROUTE_BUFFER_METERS = 5` (config.py
line 18). -/
def ROUTE_BUFFER_METERS : ℚ := 5

/-- The default proximity radius, `RAINFALL_RADIUS_METERS = 50` (config.py
line 15), also used by the live incident check. -/
def RAINFALL_RADIUS_METERS : ℚ := 50

/-- The default lookahead count, `NUM_FUTURE_LINKS = 3` (config.py line 21). -/
def NUM_FUTURE_LINKS : Nat := 3

/-- The two start-coordinate reads of `find_inbound_links`, in source order. -/
def startCoords (link : Link) : Except PyErr (ℚ × ℚ) := do
  let lat ← pyFloat link.StartLat
  let lon ← pyFloat link.StartLon
  pure (lat, lon)

/-- The two end-coordinate reads of `find_outbound_links`, in source order. -/
def endCoords (link : Link) : Except PyErr (ℚ × ℚ) := do
  let lat ← pyFloat link.EndLat
  let lon ← pyFloat link.EndLon
  pure (lat, lon)

/-- Embedding of `points_match` (route_service.py lines 179-183): the
great-circle distance is at most the buffer, boundary inclusive. The
transcendental `haversine_distance` is the parameter `hav`. -/
def points_match (hav : ℚ → ℚ → ℚ → ℚ → ℚ) (lat1 lon1 lat2 lon2 buffer : ℚ) :
    Bool :=
  decide (hav lat1 lon1 lat2 lon2 ≤ buffer)

/-- The scan of `find_inbound_links` over the candidate list: skip the
current link by id, skip links whose end coordinates raise `ValueError` or
`KeyError`, and collect the ids of links whose end point matches the current
start point. A `TypeError` is not caught and aborts the scan. -/
def inboundLoop (hav : ℚ → ℚ → ℚ → ℚ → ℚ) (cid : String) (cstart : ℚ × ℚ)
    (buffer : ℚ) : List Link → Except PyErr (List String)
  | [] => .ok []
  | link :: rest =>
    if link.LinkID = cid then inboundLoop hav cid cstart buffer rest
    else
      match endCoords link with
      | .error .valueError => inboundLoop hav cid cstart buffer rest
      | .error .keyError => inboundLoop hav cid cstart buffer rest
      | .error e => .error e
      | .ok (elat, elon) =>
        match inboundLoop hav cid cstart buffer rest with
        | .error e => .error e
        | .ok r =>
          if points_match hav cstart.1 cstart.2 elat elon buffer then
            .ok (link.LinkID :: r)
          else .ok r

/-- Embedding of `find_inbound_links` (route_service.py lines 186-209): the
ids of all other links whose END point lies within `buffer` of the current
link START point. The outer `try` returns `[]` on `ValueError`/`KeyError`. -/
def find_inbound_links (hav : ℚ → ℚ → ℚ → ℚ → ℚ) (current_link : Link)
    (all_links : List Link) (buffer : ℚ) : Except PyErr (List String) :=
  match startCoords current_link with
  | .error .valueError => .ok []
  | .error .keyError => .ok []
  | .error e => .error e
  | .ok cstart => inboundLoop hav current_link.LinkID cstart buffer all_links

/-- The scan of `find_outbound_links` over the candidate list: collect the
ids of links whose START point matches the current end point. -/
def outboundLoop (hav : ℚ → ℚ → ℚ → ℚ → ℚ) (cid : String) (cend : ℚ × ℚ)
    (buffer : ℚ) : List Link → Except PyErr (List String)
  | [] => .ok []
  | link :: rest =>
    if link.LinkID = cid then outboundLoop hav cid cend buffer rest
    else
      match startCoords link with
      | .error .valueError => outboundLoop hav cid cend buffer rest
      | .error .keyError => outboundLoop hav cid cend buffer rest
      | .error e => .error e
      | .ok (slat, slon) =>
        match outboundLoop hav cid cend buffer rest with
        | .error e => .error e
        | .ok r =>
          if points_match hav cend.1 cend.2 slat slon buffer then
            .ok (link.LinkID :: r)
          else .ok r

/-- Embedding of `find_outbound_links` (route_service.py lines 212-235): the
ids of all other links whose START point lies within `buffer` of the current
link END point. -/
def find_outbound_links (hav : ℚ → ℚ → ℚ → ℚ → ℚ) (current_link : Link)
    (all_links : List Link) (buffer : ℚ) : Except PyErr (List String) :=
  match endCoords current_link with
  | .error .valueError => .ok []
  | .error .keyError => .ok []
  | .error e => .error e
  | .ok cend => outboundLoop hav current_link.LinkID cend buffer all_links

/-- The position-collection loop of `order_links_along_route` (route_service.py
lines 143-154): each link with a usable segment is paired with the along-path
distance of its midpoint. `interpolate(0.5, normalized=True)` on a two-point
LineString is the arithmetic midpoint; the shapely
`project`/`interpolate`/`project` composite against the route polyline is the
parameter `projectAlong`. -/
def linkPositions (projectAlong : ℚ × ℚ → ℚ) : List Link →
    Except PyErr (List (Link × ℚ))
  | [] => .ok []
  | link :: rest =>
    match create_link_linestring link with
    | .error e => .error e
    | .ok Option.none => linkPositions projectAlong rest
    | .ok (some seg) =>
      match linkPositions projectAlong rest with
      | .error e => .error e
      | .ok r =>
        .ok ((link,
          projectAlong ((seg.p1.1 + seg.p2.1) / 2, (seg.p1.2 + seg.p2.2) / 2)) :: r)

/-- Embedding of `order_links_along_route` (route_service.py lines 137-162):
collect (link, along-path distance) pairs, sort them by distance with a
stable sort (Python `list.sort` is stable; the embedding uses the stable
`List.mergeSort`), and enumerate the result as (link, distance, order)
triples. -/
def order_links_along_route (projectAlong : ℚ × ℚ → ℚ) (routeEmpty : Bool)
    (links : List Link) : Except PyErr (List (Link × ℚ × Nat)) :=
  if routeEmpty then .ok []
  else
    match linkPositions projectAlong links with
    | .error e => .error e
    | .ok positions =>
      .ok ((positions.mergeSort fun a b => decide (a.2 ≤ b.2)).enum.map
        fun p => (p.2.1, p.2.2, p.1))

/-- A weather-station location record (`station["location"]`). -/
structure StationLoc where
  latitude : Option ℚ := Option.none
  longitude : Option ℚ := Option.none
deriving DecidableEq, Repr

/-- A weather-station metadata record. `location = Option.none` covers both a
missing and an empty (falsy) location dictionary. -/
structure Station where
  id : Option String := Option.none
  location : Option StationLoc := Option.none
deriving DecidableEq, Repr

/-- A rainfall reading: `reading.get("value", 0)` defaults to `0`. -/
structure RainReading where
  station_id : Option String := Option.none
  value : ℚ := 0
deriving DecidableEq, Repr

/-- The rainfall API response as read by `get_rainfall_for_link`: the items
(each reduced to its readings) and the metadata stations. -/
structure RainfallData where
  items : List (List RainReading) := []
  stations : List Station := []
deriving DecidableEq, Repr

/-- Python dict assignment `m[k] = v` on an association list: overwrite. -/
def dictInsert {α : Type} (m : List (String × α)) (k : String) (v : α) :
    List (String × α) :=
  m.filter (fun p => p.1 ≠ k) ++ [(k, v)]

/-- Python dict lookup `m.get(k)`. -/
def lookupStr {α : Type} (m : List (String × α)) (k : String) : Option α :=
  (m.find? fun p => p.1 = k).map (·.2)

/-- The station-map construction of `get_rainfall_for_link` (lines 96-106):
keep each station with a truthy id and a truthy location, mapping the id to
the optional coordinates. -/
def buildStationsMap (stations : List Station) :
    List (String × (Option ℚ × Option ℚ)) :=
  stations.foldl
    (fun m station =>
      match station.id, station.location with
      | some sid, some loc =>
        if sid ≠ "" then dictInsert m sid (loc.latitude, loc.longitude) else m
      | _, _ => m)
    []

/-- Python `float(x)` on a raw value that is known not to be a missing key. -/
def pyFloatVal : PyVal → Except PyErr ℚ
  | PyVal.none => .error .typeError
  | PyVal.num q => .ok q
  | PyVal.strNum q => .ok q
  | PyVal.strBad => .error .valueError

/-- One coordinate read of the predictor-service `get_link_midpoint`:
`float(link.get("StartLat") or link.get("start_lat", 0))`. The snake_case
alternative keys are never present in the link records, so the `or` chain
replaces a falsy primary value by `0`. -/
def midCoord (v : Option PyVal) : Except PyErr ℚ :=
  pyFloatVal (if pyTruthy v then v.getD PyVal.none else PyVal.num 0)

/-- Embedding of `get_link_midpoint` (predictor_service.py lines 49-65): the
mean of the endpoints, `None` when all four coordinates are zero or any
conversion fails (this variant catches `TypeError` as well). -/
def get_link_midpoint (link : Link) : Option (ℚ × ℚ) :=
  match (do
      let slat ← midCoord link.StartLat
      let slon ← midCoord link.StartLon
      let elat ← midCoord link.EndLat
      let elon ← midCoord link.EndLon
      pure (slat, slon, elat, elon) : Except PyErr (ℚ × ℚ × ℚ × ℚ)) with
  | .error _ => Option.none
  | .ok (slat, slon, elat, elon) =>
    if slat = 0 ∧ slon = 0 ∧ elat = 0 ∧ elon = 0 then Option.none
    else some ((slat + elat) / 2, (slon + elon) / 2)

/-- One step of the reading scan of `get_rainfall_for_link`: skip falsy
station ids, non-positive values, unresolvable stations and missing
coordinates; accept a reading only when its station distance is within the
radius (inclusive) and strictly below the minimum so far (`inf` at start,
modelled by the `Option.none` second component). -/
def liveStep (hav : ℚ → ℚ → ℚ → ℚ → ℚ) (llat llon radius_meters : ℚ)
    (smap : List (String × (Option ℚ × Option ℚ))) (acc : ℚ × Option ℚ)
    (reading : RainReading) : ℚ × Option ℚ :=
  match reading.station_id with
  | Option.none => acc
  | some sid =>
    if sid = "" ∨ reading.value ≤ 0 then acc
    else
      match lookupStr smap sid with
      | some (some slat, some slon) =>
        let d := hav llat llon slat slon
        if d ≤ radius_meters ∧
            (match acc.2 with
             | Option.none => true
             | some md => decide (d < md)) = true then
          (reading.value, some d)
        else acc
      | _ => acc

/-- Embedding of `get_rainfall_for_link` (predictor_service.py lines 68-145):
scan the latest readings with `liveStep`; the result is the value recorded by
the scan (0 when nothing was accepted). The haversine distance in meters is
the parameter `hav`. -/
def get_rainfall_for_link (hav : ℚ → ℚ → ℚ → ℚ → ℚ) (link : Link)
    (rainfall_data : Option RainfallData) (radius_meters : ℚ := 50) : ℚ :=
  match rainfall_data with
  | Option.none => 0
  | some data =>
    if data.items = [] then 0
    else
      let readings := (data.items.head?.getD [])
      if readings = [] then 0
      else
        let smap := buildStationsMap data.stations
        match get_link_midpoint link with
        | Option.none => 0
        | some (llat, llon) =>
          (readings.foldl (liveStep hav llat llon radius_meters smap)
            (0, Option.none)).1

/-- The reading-bearing station candidates of the live rainfall lookup, each
paired (value, distance): positive-value readings with a truthy station id
resolving to a station with both coordinates. -/
def liveRainCands (hav : ℚ → ℚ → ℚ → ℚ → ℚ) (llat llon : ℚ)
    (smap : List (String × (Option ℚ × Option ℚ))) (readings : List RainReading) :
    List (ℚ × ℚ) :=
  readings.filterMap fun reading =>
    match reading.station_id with
    | Option.none => Option.none
    | some sid =>
      if sid = "" ∨ reading.value ≤ 0 then Option.none
      else
        match lookupStr smap sid with
        | some (some slat, some slon) =>
          some (reading.value, hav llat llon slat slon)
        | _ => Option.none

/-- One step of the station scan of `find_nearest_station_rainfall`: a
station with no reading is skipped; otherwise the strictly nearest station
so far is kept (first wins ties). There is no distance threshold. -/
def offStep (havKm : ℚ → ℚ → ℚ → ℚ → ℚ) (mlat mlon : ℚ)
    (readings : List (String × ℚ)) (acc : Option (String × ℚ))
    (s : String × ℚ × ℚ) : Option (String × ℚ) :=
  if (lookupStr readings s.1).isSome then
    let d := havKm mlat mlon s.2.1 s.2.2
    match acc with
    | Option.none => some (s.1, d)
    | some (bsid, bd) => if d < bd then some (s.1, d) else some (bsid, bd)
  else acc

/-- Embedding of `find_nearest_station_rainfall`
(correlate_traffic_data.py lines 183-211): return the reading of the nearest
reading-bearing station, with NO radius restriction of any kind. Stations are
the (id, (lat, lon)) pairs of the offline station map; `havKm` is the
transcendental `haversine_km`. -/
def find_nearest_station_rainfall (havKm : ℚ → ℚ → ℚ → ℚ → ℚ)
    (geom : ℚ × ℚ × ℚ × ℚ) (stations : List (String × ℚ × ℚ))
    (readings : List (String × ℚ)) : ℚ :=
  if stations = [] ∨ readings = [] then 0
  else
    let mlat := (geom.1 + geom.2.2.1) / 2
    let mlon := (geom.2.1 + geom.2.2.2) / 2
    match stations.foldl (offStep havKm mlat mlon readings) Option.none with
    | Option.none => 0
    | some (bsid, _) => (lookupStr readings bsid).getD 0

/-- The station candidates of the offline rainfall lookup, each paired
(id, distance): the stations that have a reading. -/
def offRainCands (havKm : ℚ → ℚ → ℚ → ℚ → ℚ) (mlat mlon : ℚ)
    (stations : List (String × ℚ × ℚ)) (readings : List (String × ℚ)) :
    List (String × ℚ) :=
  stations.filterMap fun s =>
    if (lookupStr readings s.1).isSome then
      some (s.1, havKm mlat mlon s.2.1 s.2.2)
    else Option.none

/-- A cleaned incident record of the offline correlation path (built by
`build_incident_index`): valid coordinates and a message string. -/
structure Incident where
  Latitude : ℚ := 0
  Longitude : ℚ := 0
  Message : String := ""
deriving DecidableEq, Repr

/-- A raw incident record of the live API feed, as read by
`check_incidents_in_links`: optional coordinates; the message is present in
the feed but the live path never reads it. -/
structure IncidentRaw where
  Latitude : Option ℚ := Option.none
  Longitude : Option ℚ := Option.none
  Message : String := ""
deriving DecidableEq, Repr

/-- Python `str.lower()`: character-wise lowercasing (the messages and road
names involved are ASCII). -/
def pyLower (s : String) : String := String.mk (s.data.map Char.toLower)

/-- Whether `needle` starts the character list `hay`. -/
def startsWithL : List Char → List Char → Bool
  | [], _ => true
  | _ :: _, [] => false
  | n :: ns, h :: hs => n = h && startsWithL ns hs

/-- Whether `needle` occurs contiguously inside `hay`. -/
def containsSubL (needle : List Char) : List Char → Bool
  | [] => startsWithL needle []
  | h :: hs => startsWithL needle (h :: hs) || containsSubL needle hs

/-- Python substring test `needle in hay` on strings. -/
def pyIn (needle hay : String) : Bool := containsSubL needle.toList hay.toList

/-- Embedding of `link_has_incident` (correlate_traffic_data.py lines
268-299): a lowercased road name occurring in a lowercased incident message
marks the link with no distance computed at all; otherwise fall back to the
equirectangular point-to-segment distance (the parameter `segDistKm`) against
the default threshold of 0.1 km, boundary inclusive. `link_id` is accepted
and ignored, as in the source. -/
def link_has_incident (segDistKm : ℚ → ℚ → ℚ × ℚ × ℚ × ℚ → ℚ) (link_id : String)
    (geom : ℚ × ℚ × ℚ × ℚ) (road_name : Option String)
    (incidents : List Incident) (distance_threshold_km : ℚ := 1 / 10) : Bool :=
  let rn := pyLower (road_name.getD "")
  if rn ≠ "" ∧ incidents.any (fun inc => pyIn rn (pyLower inc.Message)) then true
  else if incidents = [] then false
  else
    incidents.any fun inc =>
      decide (segDistKm inc.Latitude inc.Longitude geom ≤ distance_threshold_km)

/-- The midpoint helper of incident_service.py (lines 29-40): mean of the
endpoints; catches only `ValueError` and `KeyError` (returning `None`), so a
`TypeError` propagates. -/
def get_link_midpoint_inc (link : Link) : Except PyErr (Option (ℚ × ℚ)) :=
  match linkCoords link with
  | .ok (slat, slon, elat, elon) =>
    .ok (some ((slat + elat) / 2, (slon + elon) / 2))
  | .error .valueError => .ok Option.none
  | .error .keyError => .ok Option.none
  | .error e => .error e

/-- Whether some live incident with both coordinates lies within 50 m
(haversine, boundary inclusive) of the given midpoint. -/
def anyIncidentNear (havM : ℚ → ℚ → ℚ → ℚ → ℚ) (mid : ℚ × ℚ)
    (incidents : List IncidentRaw) : Bool :=
  incidents.any fun inc =>
    match inc.Latitude, inc.Longitude with
    | some ilat, some ilon =>
      decide (havM mid.1 mid.2 ilat ilon ≤ RAINFALL_RADIUS_METERS)
    | _, _ => false

/-- The link scan of `check_incidents_in_links`: skip links without a
midpoint, return `true` at the first link with an incident within 50 m of its
midpoint. -/
def checkIncidentsLoop (havM : ℚ → ℚ → ℚ → ℚ → ℚ)
    (incidents : List IncidentRaw) : List Link → Except PyErr Bool
  | [] => .ok false
  | link :: rest =>
    match get_link_midpoint_inc link with
    | .error e => .error e
    | .ok Option.none => checkIncidentsLoop havM incidents rest
    | .ok (some mid) =>
      if anyIncidentNear havM mid incidents then .ok true
      else checkIncidentsLoop havM incidents rest

/-- Embedding of `check_incidents_in_links` (incident_service.py lines
64-101): `true` iff any incident with coordinates lies within
`RAINFALL_RADIUS_METERS` (50 m) of the MIDPOINT of any link. No road-name
matching and no point-to-segment distance appear in this live path. -/
def check_incidents_in_links (havM : ℚ → ℚ → ℚ → ℚ → ℚ) (links : List Link)
    (incidents : List IncidentRaw) : Except PyErr Bool :=
  if incidents = [] then .ok false
  else checkIncidentsLoop havM incidents links

/-- Concrete fixture: a link lying along the equator from (lat 0, lon 0) to
(lat 0, lon 1). -/
def locA : Link :=
  { LinkID := "A", StartLat := some (PyVal.num 0), StartLon := some (PyVal.num 0),
    EndLat := some (PyVal.num 0), EndLon := some (PyVal.num 1) }

/-- Concrete fixture: a parallel link three degrees of latitude away. -/
def locB : Link :=
  { LinkID := "B", StartLat := some (PyVal.num 3), StartLon := some (PyVal.num 0),
    EndLat := some (PyVal.num 3), EndLon := some (PyVal.num 1) }

/-- Concrete fixture for adjacency: a link ending at (1, 1). -/
def adjA : Link :=
  { LinkID := "A", StartLat := some (PyVal.num 0), StartLon := some (PyVal.num 0),
    EndLat := some (PyVal.num 1), EndLon := some (PyVal.num 1) }

/-- Concrete fixture for adjacency: a link starting at (1, 1), exactly where
`adjA` ends. -/
def adjB : Link :=
  { LinkID := "B", StartLat := some (PyVal.num 1), StartLon := some (PyVal.num 1),
    EndLat := some (PyVal.num 2), EndLon := some (PyVal.num 2) }

/-- Concrete fixture for ordering: a link whose midpoint is (1, 1). -/
def ordL1 : Link :=
  { LinkID := "O1", StartLat := some (PyVal.num 0), StartLon := some (PyVal.num 0),
    EndLat := some (PyVal.num 2), EndLon := some (PyVal.num 2) }

/-- Concrete fixture for ordering: a link whose midpoint is (5, 5). -/
def ordL2 : Link :=
  { LinkID := "O2", StartLat := some (PyVal.num 4), StartLon := some (PyVal.num 4),
    EndLat := some (PyVal.num 6), EndLon := some (PyVal.num 6) }

/-- Concrete fixture for the analysis window: the current link, at order 0,
with one inbound neighbour id `X`. -/
def cexA : Link :=
  { LinkID := "A", order := some 0, inbound_link_ids := ["X"] }

/-- Concrete fixture for the analysis window: the next link, at order 1, with
no neighbours of its own. -/
def cexB : Link :=
  { LinkID := "B", order := some 1 }

/-- Concrete fixture for the analysis window: a neighbour of the current link
that is present in the link index but not on the ordered route. -/
def cexX : Link :=
  { LinkID := "X" }

/-- Concrete fixture for the analysis window: a 2-link route whose index also
resolves the off-route neighbour `X`. -/
def cexRd : RouteData :=
  { ordered_links := [cexA, cexB],
    link_index := [("A", cexA), ("B", cexB), ("X", cexX)] }

/-- Concrete fixture: a rainfall response with one station and one positive
reading. -/
def rainFix : RainfallData :=
  { items := [[{ station_id := some "S", value := 5 }]],
    stations := [{ id := some "S",
                   location := some { latitude := some 1, longitude := some 1 } }] }

/-- Concrete fixture: a link on road AYE with all coordinates 1. -/
def incL : Link :=
  { LinkID := "L", StartLat := some (PyVal.num 1), StartLon := some (PyVal.num 1),
    EndLat := some (PyVal.num 1), EndLon := some (PyVal.num 1),
    RoadName := some "AYE" }

/-- Concrete fixture: a raw live incident far away whose message names AYE. -/
def incFix : IncidentRaw :=
  { Latitude := some 90, Longitude := some 90, Message := "JAM ON AYE" }

/-- Concrete fixture: the same incident as a cleaned offline record. -/
def incOff : Incident :=
  { Latitude := 90, Longitude := 90, Message := "JAM ON AYE" }

/-- The informative part of the live rainfall accumulator: `none` while no
reading has been accepted (`min_distance` still `inf`), otherwise the
accepted (value, distance) pair. -/
def repOf (a : ℚ × Option ℚ) : Option (ℚ × ℚ) :=
  a.2.map fun d => (a.1, d)

/-- Adjacent-duplicate suppression of a value stream, continuing after a
given last-kept value: the tail of `List.destutter' (· ≠ ·)`. -/
def suppress (last : Int) : List Int → List Int
  | [] => []
  | b :: s => if b ≠ last then b :: suppress b s else suppress last s

/-! ### Helper lemmas -/

theorem bucket_eq_clamp (avg : ℚ) :
    (if avg < 10 then (0 : ℤ)
     else if avg < 20 then 1
     else if avg < 30 then 2
     else if avg < 40 then 3
     else if avg < 50 then 4
     else if avg < 60 then 5
     else if avg < 70 then 6
     else if avg < 80 then 7
     else 8) = max 0 (min 8 ⌊avg / 10⌋) := by
  split_ifs with h1 h2 h3 h4 h5 h6 h7 h8
  · have : ⌊avg / 10⌋ < 1 := Int.floor_lt.mpr (by push_cast; linarith)
    omega
  · have : ⌊avg / 10⌋ = 1 := by
      rw [Int.floor_eq_iff]
      constructor <;> push_cast <;> linarith
    omega
  · have : ⌊avg / 10⌋ = 2 := by
      rw [Int.floor_eq_iff]
      constructor <;> push_cast <;> linarith
    omega
  · have : ⌊avg / 10⌋ = 3 := by
      rw [Int.floor_eq_iff]
      constructor <;> push_cast <;> linarith
    omega
  · have : ⌊avg / 10⌋ = 4 := by
      rw [Int.floor_eq_iff]
      constructor <;> push_cast <;> linarith
    omega
  · have : ⌊avg / 10⌋ = 5 := by
      rw [Int.floor_eq_iff]
      constructor <;> push_cast <;> linarith
    omega
  · have : ⌊avg / 10⌋ = 6 := by
      rw [Int.floor_eq_iff]
      constructor <;> push_cast <;> linarith
    omega
  · have : ⌊avg / 10⌋ = 7 := by
      rw [Int.floor_eq_iff]
      constructor <;> push_cast <;> linarith
    omega
  · have : (8 : ℤ) ≤ ⌊avg / 10⌋ := Int.le_floor.mpr (by push_cast; linarith)
    omega

theorem collectHistory_extends (sb : List (String × SpeedData)) (m : Nat) :
    ∀ ids hist, ∃ ext, collectHistory sb m ids hist = hist ++ ext := by
  intro ids
  induction ids with
  | nil => intro hist; exact ⟨[], by simp [collectHistory]⟩
  | cons lid rest ih =>
    intro hist
    simp only [collectHistory]
    cases hlk : lookupBands sb lid with
    | none => simpa [hlk] using ih hist
    | some d =>
      cases hex : extract_speedband_from_data d with
      | none => simpa [hlk, hex] using ih hist
      | some v =>
        simp only [hlk, hex]
        by_cases hc : hist = [] ∨ hist.getLast? ≠ some v
        · rw [if_pos hc]
          by_cases hm : m ≤ (hist ++ [v]).length
          · rw [if_pos hm]
            exact ⟨[v], rfl⟩
          · rw [if_neg hm]
            obtain ⟨ext, hext⟩ := ih (hist ++ [v])
            exact ⟨[v] ++ ext, by rw [hext, List.append_assoc]⟩
        · rw [if_neg hc]
          exact ih hist

theorem collectHistory_length_le (sb : List (String × SpeedData)) (m : Nat) :
    ∀ ids hist, hist.length < m → (collectHistory sb m ids hist).length ≤ m := by
  intro ids
  induction ids with
  | nil => intro hist h; simpa [collectHistory] using Nat.le_of_lt h
  | cons lid rest ih =>
    intro hist h
    simp only [collectHistory]
    cases hlk : lookupBands sb lid with
    | none => simp only [hlk]; exact ih hist h
    | some d =>
      cases hex : extract_speedband_from_data d with
      | none => simp only [hlk, hex]; exact ih hist h
      | some v =>
        simp only [hlk, hex]
        by_cases hc : hist = [] ∨ hist.getLast? ≠ some v
        · rw [if_pos hc]
          by_cases hm : m ≤ (hist ++ [v]).length
          · rw [if_pos hm]
            simp only [List.length_append, List.length_singleton]
            omega
          · rw [if_neg hm]
            exact ih (hist ++ [v]) (by simp only [List.length_append] at hm ⊢; omega)
        · rw [if_neg hc]
          exact ih hist h

theorem collectHistory_skip (sb : List (String × SpeedData)) (m : Nat) :
    ∀ ids hist, (∀ lid ∈ ids, lookupBands sb lid = Option.none) →
      collectHistory sb m ids hist = hist := by
  intro ids
  induction ids with
  | nil => intro hist _; simp [collectHistory]
  | cons lid rest ih =>
    intro hist h
    simp only [collectHistory, h lid (by simp)]
    exact ih hist fun x hx => h x (by simp [hx])

theorem collectHistory_single_const (i : String) (d : SpeedData) (b : Int)
    (hb : extract_speedband_from_data d = some b) (m : Nat) :
    ∀ ids, collectHistory [(i, d)] m ids [b] = [b] := by
  intro ids
  induction ids with
  | nil => simp [collectHistory]
  | cons lid rest ih =>
    simp only [collectHistory]
    by_cases hli : lid = i
    · have hlk : lookupBands [(i, d)] lid = some d := by
        simp [lookupBands, List.find?, hli]
      simp only [hlk, hb]
      rw [if_neg (by simp)]
      exact ih
    · have hlk : lookupBands [(i, d)] lid = Option.none := by
        simp [lookupBands, List.find?, Ne.symm hli]
      simp only [hlk]
      exact ih

theorem collectHistory_single (i : String) (d : SpeedData) (b : Int)
    (hb : extract_speedband_from_data d = some b) (m : Nat) (hm : 1 ≤ m) :
    ∀ ids, i ∈ ids → collectHistory [(i, d)] m ids [] = [b] := by
  intro ids
  induction ids with
  | nil => intro h; cases h
  | cons lid rest ih =>
    intro hmem
    simp only [collectHistory]
    by_cases hli : lid = i
    · have hlk : lookupBands [(i, d)] lid = some d := by
        simp [lookupBands, List.find?, hli]
      simp only [hlk, hb]
      rw [if_pos (Or.inl trivial)]
      by_cases h1 : m ≤ ([] ++ [b] : List Int).length
      · rw [if_pos h1]
        rfl
      · rw [if_neg h1]
        exact collectHistory_single_const i d b hb m rest
    · have hlk : lookupBands [(i, d)] lid = Option.none := by
        simp [lookupBands, List.find?, Ne.symm hli]
      simp only [hlk]
      refine ih ?_
      rcases List.mem_cons.mp hmem with h | h
      · exact absurd h.symm hli
      · exact h

theorem suppress_destutter (s : List Int) :
    ∀ a : Int, List.destutter' (· ≠ ·) a s = a :: suppress a s := by
  induction s with
  | nil => intro a; simp [List.destutter'_nil, suppress]
  | cons b s ih =>
    intro a
    by_cases h : a ≠ b
    · rw [List.destutter'_cons_pos _ h, ih b]
      simp [suppress, Ne.symm h]
    · rw [List.destutter'_cons_neg _ h, ih a]
      have hb : ¬b ≠ a := fun hc => h (Ne.symm hc)
      simp [suppress, hb]

theorem destutter_eq_suppress (a : Int) (s : List Int) :
    List.destutter (· ≠ ·) (a :: s) = a :: suppress a s := by
  rw [List.destutter_cons', suppress_destutter s a]

theorem bandStream_cons_none (sb : List (String × SpeedData)) (lid : String)
    (ids : List String) (h : (lookupBands sb lid).bind extract_speedband_from_data = Option.none) :
    bandStream sb (lid :: ids) = bandStream sb ids := by
  simp [bandStream, List.filterMap_cons, h]

theorem bandStream_cons_some (sb : List (String × SpeedData)) (lid : String)
    (ids : List String) (v : Int)
    (h : (lookupBands sb lid).bind extract_speedband_from_data = some v) :
    bandStream sb (lid :: ids) = v :: bandStream sb ids := by
  simp [bandStream, List.filterMap_cons, h]

theorem collectHistory_suppress (sb : List (String × SpeedData)) (m : Nat) :
    ∀ ids (hist : List Int) (last : Int), hist.getLast? = some last →
      hist.length < m →
      collectHistory sb m ids hist =
        hist ++ (suppress last (bandStream sb ids)).take (m - hist.length) := by
  intro ids
  induction ids with
  | nil => intro hist last hl hm; simp [collectHistory, bandStream, suppress]
  | cons lid rest ih =>
    intro hist last hl hm
    simp only [collectHistory]
    cases hlk : lookupBands sb lid with
    | none =>
      simp only [hlk]
      rw [bandStream_cons_none sb lid rest (by simp [hlk])]
      exact ih hist last hl hm
    | some d =>
      cases hex : extract_speedband_from_data d with
      | none =>
        simp only [hlk, hex]
        rw [bandStream_cons_none sb lid rest (by simp [hlk, hex])]
        exact ih hist last hl hm
      | some v =>
        simp only [hlk, hex]
        rw [bandStream_cons_some sb lid rest v (by simp [hlk, hex])]
        have hne : hist ≠ [] := by intro hc; rw [hc] at hl; cases hl
        by_cases hv : v = last
        · subst hv
          rw [if_neg (by simp [hne, hl])]
          rw [show suppress v (v :: bandStream sb rest) = suppress v (bandStream sb rest) from by
            simp [suppress]]
          exact ih hist v hl hm
        · rw [if_pos (Or.inr (by rw [hl]; simp [Ne.symm hv]))]
          rw [show suppress last (v :: bandStream sb rest) = v :: suppress v (bandStream sb rest) from by
            simp [suppress, hv]]
          by_cases hm2 : m ≤ (hist ++ [v]).length
          · rw [if_pos hm2]
            have h1 : m - hist.length = 1 := by
              simp only [List.length_append, List.length_singleton] at hm2
              omega
            rw [h1, List.take_succ_cons, List.take_zero]
          · rw [if_neg hm2]
            have hlen : (hist ++ [v]).length < m := by
              simp only [List.length_append, List.length_singleton] at hm2 ⊢
              omega
            rw [ih (hist ++ [v]) v (by simp) hlen]
            rw [List.append_assoc]
            congr 1
            have h2 : m - hist.length = (m - (hist ++ [v]).length) + 1 := by
              simp only [List.length_append, List.length_singleton]
              omega
            rw [h2, List.take_succ_cons]
            rfl

theorem collectHistory_destutter (sb : List (String × SpeedData)) (m : Nat)
    (hm : 1 ≤ m) :
    ∀ ids, collectHistory sb m ids [] =
      ((bandStream sb ids).destutter (· ≠ ·)).take m := by
  intro ids
  induction ids with
  | nil => simp [collectHistory, bandStream, List.destutter_nil]
  | cons lid rest ih =>
    simp only [collectHistory]
    cases hlk : lookupBands sb lid with
    | none =>
      simp only [hlk]
      rw [bandStream_cons_none sb lid rest (by simp [hlk])]
      exact ih
    | some d =>
      cases hex : extract_speedband_from_data d with
      | none =>
        simp only [hlk, hex]
        rw [bandStream_cons_none sb lid rest (by simp [hlk, hex])]
        exact ih
      | some v =>
        simp only [hlk, hex]
        rw [bandStream_cons_some sb lid rest v (by simp [hlk, hex])]
        rw [destutter_eq_suppress]
        rw [if_pos (Or.inl trivial)]
        by_cases hm2 : m ≤ ([] ++ [v] : List Int).length
        · rw [if_pos hm2]
          have h1 : m = 1 := by simp at hm2; omega
          subst h1
          rw [List.take_succ_cons, List.take_zero]
          rfl
        · rw [if_neg hm2]
          have hlen : (([] : List Int) ++ [v]).length < m := by simp at hm2 ⊢; omega
          rw [collectHistory_suppress sb m rest ([] ++ [v]) v (by simp) hlen]
          have h2 : m = (m - (([] : List Int) ++ [v]).length) + 1 := by simp; omega
          rw [h2, List.take_succ_cons]
          simp

theorem dedupTruthy_eq_firstDedup :
    ∀ (l seen : List String), (∀ x ∈ l, x ≠ "") →
      dedupTruthy seen l = firstDedup seen l := by
  intro l
  induction l with
  | nil => intro seen _; rfl
  | cons x xs ih =>
    intro seen hx
    simp only [dedupTruthy, firstDedup]
    have hxe : x ≠ "" := hx x (by simp)
    by_cases hmem : x ∈ seen
    · rw [if_neg (by simp [hmem]), if_pos hmem]
      exact ih seen fun y hy => hx y (by simp [hy])
    · rw [if_pos ⟨hxe, hmem⟩, if_neg hmem]
      rw [ih (x :: seen) fun y hy => hx y (by simp [hy])]

theorem filterMap_ids (ns : List Link) (h : ∀ l ∈ ns, l.LinkID ≠ "") :
    ns.filterMap (fun l => if l.LinkID ≠ "" then some l.LinkID else Option.none) =
      ns.map (·.LinkID) := by
  induction ns with
  | nil => rfl
  | cons n ns ih =>
    rw [List.filterMap_cons, List.map_cons]
    rw [if_pos (h n (by simp))]
    rw [ih fun l hl => h l (by simp [hl])]

theorem candidateIds_all_present (target current : Link) (next_links : List Link)
    (hcur : current.LinkID ≠ "") (htar : target.LinkID ≠ "")
    (hnext : ∀ l ∈ next_links, l.LinkID ≠ "") :
    candidateIds target current next_links =
      target.inbound_link_ids ++ [current.LinkID] ++ [target.LinkID] ++
        next_links.map (·.LinkID) ++ target.outbound_link_ids := by
  unfold candidateIds
  rw [if_pos hcur, if_pos htar, filterMap_ids next_links hnext]

theorem locatorScan_some {α : Type} :
    ∀ (cs : List (α × ℚ)) (c0 : α × ℚ),
      locatorScan (some c0) cs =
        some (match firstMin cs with
              | Option.none => c0
              | some c' => if c'.2 < c0.2 then c' else c0) := by
  intro cs
  induction cs with
  | nil => intro c0; rfl
  | cons c cs ih =>
    intro c0
    simp only [locatorScan, firstMin]
    by_cases h1 : c.2 < c0.2
    · rw [if_pos h1, ih c]
      cases hf : firstMin cs with
      | none => simp [h1]
      | some c' =>
        by_cases h2 : c'.2 < c.2
        · simp [h2, lt_trans h2 h1]
        · simp [h2, h1]
    · rw [if_neg h1, ih c0]
      cases hf : firstMin cs with
      | none => simp [h1]
      | some c' =>
        by_cases h2 : c'.2 < c.2
        · simp [h2]
        · have h3 : ¬c'.2 < c0.2 := by push_neg at h1 h2 ⊢; linarith
          simp [h2, h1, h3]

theorem locatorScan_none {α : Type} (cs : List (α × ℚ)) :
    locatorScan Option.none cs = firstMin cs := by
  cases cs with
  | nil => rfl
  | cons c cs =>
    simp only [locatorScan, firstMin]
    rw [locatorScan_some cs c]
    cases hf : firstMin cs with
    | none => rfl
    | some c' => by_cases h2 : c'.2 < c.2 <;> simp [h2]

theorem firstMin_eq_none {α : Type} {cs : List (α × ℚ)} :
    firstMin cs = Option.none ↔ cs = [] := by
  cases cs with
  | nil => simp [firstMin]
  | cons c cs =>
    simp only [firstMin]
    cases firstMin cs with
    | none => simp
    | some c' => by_cases h2 : c'.2 < c.2 <;> simp [h2]

theorem firstMin_mem {α : Type} :
    ∀ {cs : List (α × ℚ)} {c}, firstMin cs = some c → c ∈ cs := by
  intro cs
  induction cs with
  | nil => intro c h; cases h
  | cons a cs ih =>
    intro c h
    simp only [firstMin] at h
    cases hf : firstMin cs with
    | none =>
      simp only [hf] at h
      injection h with h
      exact h ▸ List.mem_cons_self a cs
    | some c' =>
      simp only [hf] at h
      split_ifs at h with h2
      · injection h with h
        exact h ▸ List.mem_cons_of_mem a (ih hf)
      · injection h with h
        exact h ▸ List.mem_cons_self a cs

theorem firstMin_le {α : Type} :
    ∀ {cs : List (α × ℚ)} {c}, firstMin cs = some c → ∀ c' ∈ cs, c.2 ≤ c'.2 := by
  intro cs
  induction cs with
  | nil => intro c h; cases h
  | cons a cs ih =>
    intro c h x hx
    simp only [firstMin] at h
    cases hf : firstMin cs with
    | none =>
      simp only [hf] at h
      injection h with h
      subst h
      rcases List.mem_cons.mp hx with rfl | hx
      · exact le_refl _
      · rw [firstMin_eq_none.mp hf] at hx
        cases hx
    | some c' =>
      simp only [hf] at h
      split_ifs at h with h2
      · injection h with h
        subst h
        rcases List.mem_cons.mp hx with rfl | hx
        · exact le_of_lt h2
        · exact ih hf x hx
      · injection h with h
        subst h
        rcases List.mem_cons.mp hx with rfl | hx
        · exact le_refl _
        · exact le_trans (not_lt.mp h2) (ih hf x hx)

theorem firstMin_first {α : Type} :
    ∀ {cs : List (α × ℚ)} {c}, firstMin cs = some c →
      ∃ pre post, cs = pre ++ c :: post ∧ ∀ c' ∈ pre, c.2 < c'.2 := by
  intro cs
  induction cs with
  | nil => intro c h; cases h
  | cons a cs ih =>
    intro c h
    simp only [firstMin] at h
    cases hf : firstMin cs with
    | none =>
      simp only [hf] at h
      injection h with h
      subst h
      exact ⟨[], cs, rfl, by simp⟩
    | some c' =>
      simp only [hf] at h
      split_ifs at h with h2
      · injection h with h
        subst h
        obtain ⟨pre, post, heq, hpre⟩ := ih hf
        exact ⟨a :: pre, post, by rw [heq]; rfl,
          by intro x hx
             rcases List.mem_cons.mp hx with rfl | hx
             · exact h2
             · exact hpre x hx⟩
      · injection h with h
        subst h
        exact ⟨[], cs, rfl, by simp⟩

theorem outboundLoop_mem (hav : ℚ → ℚ → ℚ → ℚ → ℚ) (cid : String)
    (cend : ℚ × ℚ) (buffer : ℚ) :
    ∀ (ls : List Link) (out : List String),
      outboundLoop hav cid cend buffer ls = .ok out →
      ∀ lid, lid ∈ out ↔ ∃ l ∈ ls, l.LinkID = lid ∧ l.LinkID ≠ cid ∧
        ∃ s, startCoords l = .ok s ∧
          points_match hav cend.1 cend.2 s.1 s.2 buffer = true := by
  intro ls
  induction ls with
  | nil =>
    intro out h lid
    injection h with h
    subst h
    simp
  | cons link rest ih =>
    intro out h lid
    simp only [outboundLoop] at h
    by_cases hid : link.LinkID = cid
    · rw [if_pos hid] at h
      rw [ih out h lid]
      constructor
      · rintro ⟨l, hl, hrest⟩
        exact ⟨l, List.mem_cons_of_mem _ hl, hrest⟩
      · rintro ⟨l, hl, h1, h2, h3⟩
        rcases List.mem_cons.mp hl with rfl | hl
        · exact absurd hid h2
        · exact ⟨l, hl, h1, h2, h3⟩
    · rw [if_neg hid] at h
      cases hsc : startCoords link with
      | error e =>
        cases e with
        | typeError => simp only [hsc] at h; cases h
        | valueError =>
          simp only [hsc] at h
          rw [ih out h lid]
          constructor
          · rintro ⟨l, hl, hrest⟩
            exact ⟨l, List.mem_cons_of_mem _ hl, hrest⟩
          · rintro ⟨l, hl, h1, h2, s', hs', h3⟩
            rcases List.mem_cons.mp hl with rfl | hl
            · rw [hsc] at hs'; cases hs'
            · exact ⟨l, hl, h1, h2, s', hs', h3⟩
        | keyError =>
          simp only [hsc] at h
          rw [ih out h lid]
          constructor
          · rintro ⟨l, hl, hrest⟩
            exact ⟨l, List.mem_cons_of_mem _ hl, hrest⟩
          · rintro ⟨l, hl, h1, h2, s', hs', h3⟩
            rcases List.mem_cons.mp hl with rfl | hl
            · rw [hsc] at hs'; cases hs'
            · exact ⟨l, hl, h1, h2, s', hs', h3⟩
      | ok s =>
        simp only [hsc] at h
        cases hrest : outboundLoop hav cid cend buffer rest with
        | error e2 => simp [hrest] at h
        | ok r =>
          simp only [hrest] at h
          by_cases hpm : points_match hav cend.1 cend.2 s.1 s.2 buffer = true
          · rw [if_pos hpm] at h
            injection h with h
            subst h
            constructor
            · intro hmem
              rcases List.mem_cons.mp hmem with rfl | hmem
              · exact ⟨link, List.mem_cons_self _ _, rfl, hid, s, hsc, hpm⟩
              · obtain ⟨l, hl, hrest'⟩ := (ih r hrest lid).mp hmem
                exact ⟨l, List.mem_cons_of_mem _ hl, hrest'⟩
            · rintro ⟨l, hl, hlid, hne2, s', hs', hpm'⟩
              rcases List.mem_cons.mp hl with rfl | hl
              · rw [← hlid]
                exact List.mem_cons_self _ _
              · exact List.mem_cons_of_mem _
                  ((ih r hrest lid).mpr ⟨l, hl, hlid, hne2, s', hs', hpm'⟩)
          · rw [if_neg hpm] at h
            injection h with h
            subst h
            rw [ih r hrest lid]
            constructor
            · rintro ⟨l, hl, hrest'⟩
              exact ⟨l, List.mem_cons_of_mem _ hl, hrest'⟩
            · rintro ⟨l, hl, hlid, hne2, s', hs', hpm'⟩
              rcases List.mem_cons.mp hl with rfl | hl
              · rw [hsc] at hs'
                injection hs' with hs'
                subst hs'
                exact absurd hpm' hpm
              · exact ⟨l, hl, hlid, hne2, s', hs', hpm'⟩

theorem inboundLoop_mem (hav : ℚ → ℚ → ℚ → ℚ → ℚ) (cid : String)
    (cstart : ℚ × ℚ) (buffer : ℚ) :
    ∀ (ls : List Link) (out : List String),
      inboundLoop hav cid cstart buffer ls = .ok out →
      ∀ lid, lid ∈ out ↔ ∃ l ∈ ls, l.LinkID = lid ∧ l.LinkID ≠ cid ∧
        ∃ s, endCoords l = .ok s ∧
          points_match hav cstart.1 cstart.2 s.1 s.2 buffer = true := by
  intro ls
  induction ls with
  | nil =>
    intro out h lid
    injection h with h
    subst h
    simp
  | cons link rest ih =>
    intro out h lid
    simp only [inboundLoop] at h
    by_cases hid : link.LinkID = cid
    · rw [if_pos hid] at h
      rw [ih out h lid]
      constructor
      · rintro ⟨l, hl, hrest⟩
        exact ⟨l, List.mem_cons_of_mem _ hl, hrest⟩
      · rintro ⟨l, hl, h1, h2, h3⟩
        rcases List.mem_cons.mp hl with rfl | hl
        · exact absurd hid h2
        · exact ⟨l, hl, h1, h2, h3⟩
    · rw [if_neg hid] at h
      cases hsc : endCoords link with
      | error e =>
        cases e with
        | typeError => simp only [hsc] at h; cases h
        | valueError =>
          simp only [hsc] at h
          rw [ih out h lid]
          constructor
          · rintro ⟨l, hl, hrest⟩
            exact ⟨l, List.mem_cons_of_mem _ hl, hrest⟩
          · rintro ⟨l, hl, h1, h2, s', hs', h3⟩
            rcases List.mem_cons.mp hl with rfl | hl
            · rw [hsc] at hs'; cases hs'
            · exact ⟨l, hl, h1, h2, s', hs', h3⟩
        | keyError =>
          simp only [hsc] at h
          rw [ih out h lid]
          constructor
          · rintro ⟨l, hl, hrest⟩
            exact ⟨l, List.mem_cons_of_mem _ hl, hrest⟩
          · rintro ⟨l, hl, h1, h2, s', hs', h3⟩
            rcases List.mem_cons.mp hl with rfl | hl
            · rw [hsc] at hs'; cases hs'
            · exact ⟨l, hl, h1, h2, s', hs', h3⟩
      | ok s =>
        simp only [hsc] at h
        cases hrest : inboundLoop hav cid cstart buffer rest with
        | error e2 => simp [hrest] at h
        | ok r =>
          simp only [hrest] at h
          by_cases hpm : points_match hav cstart.1 cstart.2 s.1 s.2 buffer = true
          · rw [if_pos hpm] at h
            injection h with h
            subst h
            constructor
            · intro hmem
              rcases List.mem_cons.mp hmem with rfl | hmem
              · exact ⟨link, List.mem_cons_self _ _, rfl, hid, s, hsc, hpm⟩
              · obtain ⟨l, hl, hrest'⟩ := (ih r hrest lid).mp hmem
                exact ⟨l, List.mem_cons_of_mem _ hl, hrest'⟩
            · rintro ⟨l, hl, hlid, hne2, s', hs', hpm'⟩
              rcases List.mem_cons.mp hl with rfl | hl
              · rw [← hlid]
                exact List.mem_cons_self _ _
              · exact List.mem_cons_of_mem _
                  ((ih r hrest lid).mpr ⟨l, hl, hlid, hne2, s', hs', hpm'⟩)
          · rw [if_neg hpm] at h
            injection h with h
            subst h
            rw [ih r hrest lid]
            constructor
            · rintro ⟨l, hl, hrest'⟩
              exact ⟨l, List.mem_cons_of_mem _ hl, hrest'⟩
            · rintro ⟨l, hl, hlid, hne2, s', hs', hpm'⟩
              rcases List.mem_cons.mp hl with rfl | hl
              · rw [hsc] at hs'
                injection hs' with hs'
                subst hs'
                exact absurd hpm' hpm
              · exact ⟨l, hl, hlid, hne2, s', hs', hpm'⟩

theorem mergeSort_filter_key (positions : List (Link × ℚ)) (d : ℚ) :
    ((positions.mergeSort fun a b => decide (a.2 ≤ b.2)).filter
        fun p => decide (p.2 = d)) =
      positions.filter fun p => decide (p.2 = d) := by
  have htrans : ∀ a b c : Link × ℚ, decide (a.2 ≤ b.2) = true →
      decide (b.2 ≤ c.2) = true → decide (a.2 ≤ c.2) = true := by
    intro a b c h1 h2
    simp only [decide_eq_true_eq] at *
    exact le_trans h1 h2
  have htotal : ∀ a b : Link × ℚ,
      (decide (a.2 ≤ b.2) || decide (b.2 ≤ a.2)) = true := by
    intro a b
    rcases le_total a.2 b.2 with h | h <;> simp [h]
  have hmemkey : ∀ p ∈ positions.filter fun p => decide (p.2 = d), p.2 = d := by
    intro p hp
    have := (List.mem_filter.mp hp).2
    simpa using this
  have hpw : (positions.filter fun p => decide (p.2 = d)).Pairwise
      (fun a b => decide (a.2 ≤ b.2) = true) := by
    apply List.pairwise_of_forall_mem_list
    intro a ha b hb
    rw [hmemkey a ha, hmemkey b hb]
    simp
  have hsub : List.Sublist (positions.filter fun p => decide (p.2 = d))
      (positions.mergeSort fun a b => decide (a.2 ≤ b.2)) :=
    List.sublist_mergeSort htrans htotal hpw (List.filter_sublist positions)
  have hsub2 : List.Sublist (positions.filter fun p => decide (p.2 = d))
      ((positions.mergeSort fun a b => decide (a.2 ≤ b.2)).filter
        fun p => decide (p.2 = d)) := by
    have hfil := List.Sublist.filter (fun p => decide (p.2 = d)) hsub
    have hfix : (positions.filter fun p => decide (p.2 = d)).filter
        (fun p => decide (p.2 = d)) = positions.filter fun p => decide (p.2 = d) :=
      List.filter_eq_self.mpr fun a ha => (List.mem_filter.mp ha).2
    rwa [hfix] at hfil
  have hperm : List.Perm
      ((positions.mergeSort fun a b => decide (a.2 ≤ b.2)).filter
        fun p => decide (p.2 = d))
      (positions.filter fun p => decide (p.2 = d)) :=
    (List.mergeSort_perm positions _).filter _
  exact (hsub2.eq_of_length hperm.length_eq.symm).symm

theorem offFold_eq_scan (havKm : ℚ → ℚ → ℚ → ℚ → ℚ) (mlat mlon : ℚ)
    (readings : List (String × ℚ)) :
    ∀ (stations : List (String × ℚ × ℚ)) (acc : Option (String × ℚ)),
      stations.foldl (offStep havKm mlat mlon readings) acc =
        locatorScan acc (offRainCands havKm mlat mlon stations readings) := by
  intro stations
  induction stations with
  | nil => intro acc; rfl
  | cons s rest ih =>
    intro acc
    cases hr : (lookupStr readings s.1).isSome with
    | false =>
      have hstep : offStep havKm mlat mlon readings acc s = acc := by
        simp [offStep, hr]
      have hc : offRainCands havKm mlat mlon (s :: rest) readings =
          offRainCands havKm mlat mlon rest readings := by
        simp [offRainCands, List.filterMap_cons, hr]
      rw [List.foldl_cons, hstep, hc]
      exact ih acc
    | true =>
      have hc : offRainCands havKm mlat mlon (s :: rest) readings =
          (s.1, havKm mlat mlon s.2.1 s.2.2) ::
            offRainCands havKm mlat mlon rest readings := by
        simp [offRainCands, List.filterMap_cons, hr]
      rw [List.foldl_cons, hc]
      cases acc with
      | none =>
        have hstep : offStep havKm mlat mlon readings Option.none s =
            some (s.1, havKm mlat mlon s.2.1 s.2.2) := by
          simp [offStep, hr]
        rw [hstep]
        simp only [locatorScan]
        exact ih _
      | some c' =>
        obtain ⟨bsid, bd⟩ := c'
        have hstep : offStep havKm mlat mlon readings (some (bsid, bd)) s =
            if havKm mlat mlon s.2.1 s.2.2 < bd then
              some (s.1, havKm mlat mlon s.2.1 s.2.2)
            else some (bsid, bd) := by
          simp [offStep, hr]
        rw [hstep]
        simp only [locatorScan]
        by_cases hlt : havKm mlat mlon s.2.1 s.2.2 < bd
        · rw [if_pos hlt]
          exact ih _
        · rw [if_neg hlt]
          exact ih _

theorem liveStep_cases (hav : ℚ → ℚ → ℚ → ℚ → ℚ) (llat llon radius : ℚ)
    (smap : List (String × (Option ℚ × Option ℚ))) (acc : ℚ × Option ℚ)
    (r : RainReading) :
    liveStep hav llat llon radius smap acc r = acc ∨
      (liveStep hav llat llon radius smap acc r).2.isSome = true := by
  cases hsid : r.station_id with
  | none => exact Or.inl (by simp [liveStep, hsid])
  | some sid =>
    by_cases h1 : sid = "" ∨ r.value ≤ 0
    · exact Or.inl (by simp only [liveStep, hsid]; rw [if_pos h1])
    · cases hlk : lookupStr smap sid with
      | none =>
        exact Or.inl (by simp only [liveStep, hsid]; rw [if_neg h1, hlk])
      | some p =>
        obtain ⟨oslat, oslon⟩ := p
        cases oslat with
        | none =>
          exact Or.inl (by simp only [liveStep, hsid]; rw [if_neg h1, hlk])
        | some slat =>
          cases oslon with
          | none =>
            exact Or.inl (by simp only [liveStep, hsid]; rw [if_neg h1, hlk])
          | some slon =>
            by_cases hc : hav llat llon slat slon ≤ radius ∧
                (match acc.2 with
                 | Option.none => true
                 | some md => decide (hav llat llon slat slon < md)) = true
            · refine Or.inr ?_
              have hstep : liveStep hav llat llon radius smap acc r =
                  (r.value, some (hav llat llon slat slon)) := by
                simp only [liveStep, hsid, hlk]
                rw [if_neg h1]
                rw [if_pos hc]
              rw [hstep]
              rfl
            · refine Or.inl ?_
              simp only [liveStep, hsid, hlk]
              rw [if_neg h1]
              rw [if_neg hc]

theorem liveFold_some (hav : ℚ → ℚ → ℚ → ℚ → ℚ) (llat llon radius : ℚ)
    (smap : List (String × (Option ℚ × Option ℚ))) :
    ∀ (readings : List RainReading) (acc : ℚ × Option ℚ), acc.2.isSome = true →
      ((readings.foldl (liveStep hav llat llon radius smap) acc)).2.isSome = true := by
  intro readings
  induction readings with
  | nil => intro acc h; exact h
  | cons r rest ih =>
    intro acc h
    rw [List.foldl_cons]
    rcases liveStep_cases hav llat llon radius smap acc r with hs | hs
    · rw [hs]; exact ih acc h
    · exact ih _ hs

theorem liveFold_none (hav : ℚ → ℚ → ℚ → ℚ → ℚ) (llat llon radius : ℚ)
    (smap : List (String × (Option ℚ × Option ℚ))) :
    ∀ (readings : List RainReading) (acc : ℚ × Option ℚ),
      ((readings.foldl (liveStep hav llat llon radius smap) acc)).2 = Option.none →
      readings.foldl (liveStep hav llat llon radius smap) acc = acc := by
  intro readings
  induction readings with
  | nil => intro acc _; rfl
  | cons r rest ih =>
    intro acc h
    rw [List.foldl_cons] at h ⊢
    rcases liveStep_cases hav llat llon radius smap acc r with hs | hs
    · rw [hs] at h ⊢; exact ih acc h
    · exfalso
      have := liveFold_some hav llat llon radius smap rest _ hs
      rw [h] at this
      cases this

theorem liveFold_scan (hav : ℚ → ℚ → ℚ → ℚ → ℚ) (llat llon radius : ℚ)
    (smap : List (String × (Option ℚ × Option ℚ))) :
    ∀ (readings : List RainReading) (acc : ℚ × Option ℚ),
      repOf (readings.foldl (liveStep hav llat llon radius smap) acc) =
        locatorScan (repOf acc)
          ((liveRainCands hav llat llon smap readings).filter
            fun c => decide (c.2 ≤ radius)) := by
  intro readings
  induction readings with
  | nil => intro acc; rfl
  | cons r rest ih =>
    intro acc
    rw [List.foldl_cons]
    cases hsid : r.station_id with
    | none =>
      have hstep : liveStep hav llat llon radius smap acc r = acc := by
        simp [liveStep, hsid]
      have hc : liveRainCands hav llat llon smap (r :: rest) =
          liveRainCands hav llat llon smap rest := by
        simp [liveRainCands, List.filterMap_cons, hsid]
      rw [hstep, hc]
      exact ih acc
    | some sid =>
      by_cases h1 : sid = "" ∨ r.value ≤ 0
      · have hstep : liveStep hav llat llon radius smap acc r = acc := by
          simp only [liveStep, hsid]
          rw [if_pos h1]
        have hc : liveRainCands hav llat llon smap (r :: rest) =
            liveRainCands hav llat llon smap rest := by
          simp only [liveRainCands, List.filterMap_cons, hsid]
          rw [if_pos h1]
        rw [hstep, hc]
        exact ih acc
      · cases hlk : lookupStr smap sid with
        | none =>
          have hstep : liveStep hav llat llon radius smap acc r = acc := by
            simp only [liveStep, hsid, hlk]
            rw [if_neg h1]
          have hc : liveRainCands hav llat llon smap (r :: rest) =
              liveRainCands hav llat llon smap rest := by
            simp only [liveRainCands, List.filterMap_cons, hsid]
            rw [if_neg h1, hlk]
          rw [hstep, hc]
          exact ih acc
        | some p =>
          obtain ⟨oslat, oslon⟩ := p
          cases oslat with
          | none =>
            have hstep : liveStep hav llat llon radius smap acc r = acc := by
              simp only [liveStep, hsid, hlk]
              rw [if_neg h1]
            have hc : liveRainCands hav llat llon smap (r :: rest) =
                liveRainCands hav llat llon smap rest := by
              simp only [liveRainCands, List.filterMap_cons, hsid]
              rw [if_neg h1, hlk]
            rw [hstep, hc]
            exact ih acc
          | some slat =>
            cases oslon with
            | none =>
              have hstep : liveStep hav llat llon radius smap acc r = acc := by
                simp only [liveStep, hsid, hlk]
                rw [if_neg h1]
              have hc : liveRainCands hav llat llon smap (r :: rest) =
                  liveRainCands hav llat llon smap rest := by
                simp only [liveRainCands, List.filterMap_cons, hsid]
                rw [if_neg h1, hlk]
              rw [hstep, hc]
              exact ih acc
            | some slon =>
              have hc : liveRainCands hav llat llon smap (r :: rest) =
                  (r.value, hav llat llon slat slon) ::
                    liveRainCands hav llat llon smap rest := by
                simp only [liveRainCands, List.filterMap_cons, hsid]
                rw [if_neg h1, hlk]
              rw [hc]
              by_cases hrad : hav llat llon slat slon ≤ radius
              · rw [show ((r.value, hav llat llon slat slon) ::
                    liveRainCands hav llat llon smap rest).filter
                      (fun c => decide (c.2 ≤ radius)) =
                    (r.value, hav llat llon slat slon) ::
                      (liveRainCands hav llat llon smap rest).filter
                        (fun c => decide (c.2 ≤ radius)) from by
                  simp [List.filter_cons, hrad]]
                cases hacc : acc.2 with
                | none =>
                  have hstep : liveStep hav llat llon radius smap acc r =
                      (r.value, some (hav llat llon slat slon)) := by
                    simp only [liveStep, hsid, hlk]
                    rw [if_neg h1]
                    rw [if_pos (by rw [hacc]; exact ⟨hrad, rfl⟩)]
                  rw [hstep]
                  have hrep : repOf acc = Option.none := by
                    simp [repOf, hacc]
                  rw [ih (r.value, some (hav llat llon slat slon))]
                  simp only [locatorScan, hrep]
                  rfl
                | some md =>
                  by_cases hlt : hav llat llon slat slon < md
                  · have hstep : liveStep hav llat llon radius smap acc r =
                        (r.value, some (hav llat llon slat slon)) := by
                      simp only [liveStep, hsid, hlk]
                      rw [if_neg h1]
                      rw [if_pos (by rw [hacc]; exact ⟨hrad, decide_eq_true hlt⟩)]
                    rw [hstep]
                    have hrep : repOf acc = some (acc.1, md) := by
                      simp [repOf, hacc]
                    rw [ih (r.value, some (hav llat llon slat slon))]
                    simp only [locatorScan, hrep]
                    rw [if_pos hlt]
                    rfl
                  · have hstep : liveStep hav llat llon radius smap acc r = acc := by
                      simp only [liveStep, hsid, hlk]
                      rw [if_neg h1]
                      rw [if_neg (by
                        rw [hacc]
                        intro hcon
                        exact hlt (of_decide_eq_true hcon.2))]
                    rw [hstep]
                    have hrep : repOf acc = some (acc.1, md) := by
                      simp [repOf, hacc]
                    rw [ih acc]
                    simp only [locatorScan, hrep]
                    rw [if_neg hlt]
              · rw [show ((r.value, hav llat llon slat slon) ::
                    liveRainCands hav llat llon smap rest).filter
                      (fun c => decide (c.2 ≤ radius)) =
                    (liveRainCands hav llat llon smap rest).filter
                      (fun c => decide (c.2 ≤ radius)) from by
                  simp [List.filter_cons, hrad]]
                have hstep : liveStep hav llat llon radius smap acc r = acc := by
                  simp only [liveStep, hsid, hlk]
                  rw [if_neg h1]
                  rw [if_neg (fun hcon => hrad hcon.1)]
                rw [hstep]
                exact ih acc

theorem checkLoop_iff (havM : ℚ → ℚ → ℚ → ℚ → ℚ) (incidents : List IncidentRaw) :
    ∀ ls : List Link, (∀ l ∈ ls, ∀ e, get_link_midpoint_inc l ≠ .error e) →
      (checkIncidentsLoop havM incidents ls = .ok true ↔
        ∃ l ∈ ls, ∃ mid, get_link_midpoint_inc l = .ok (some mid) ∧
          anyIncidentNear havM mid incidents = true) := by
  intro ls
  induction ls with
  | nil =>
    intro _
    simp [checkIncidentsLoop]
  | cons link rest ih =>
    intro h
    simp only [checkIncidentsLoop]
    cases hm : get_link_midpoint_inc link with
    | error e => exact absurd hm (h link (List.mem_cons_self _ _) e)
    | ok o =>
      cases o with
      | none =>
        simp only [hm]
        rw [ih fun l hl => h l (List.mem_cons_of_mem _ hl)]
        constructor
        · rintro ⟨l, hl, hrest⟩
          exact ⟨l, List.mem_cons_of_mem _ hl, hrest⟩
        · rintro ⟨l, hl, mid, hmid, hnear⟩
          rcases List.mem_cons.mp hl with rfl | hl
          · rw [hm] at hmid
            cases hmid
          · exact ⟨l, hl, mid, hmid, hnear⟩
      | some mid =>
        simp only [hm]
        by_cases hnear : anyIncidentNear havM mid incidents = true
        · rw [if_pos hnear]
          simp only [true_iff]
          exact ⟨link, List.mem_cons_self _ _, mid, hm, hnear⟩
        · rw [if_neg hnear]
          rw [ih fun l hl => h l (List.mem_cons_of_mem _ hl)]
          constructor
          · rintro ⟨l, hl, hrest⟩
            exact ⟨l, List.mem_cons_of_mem _ hl, hrest⟩
          · rintro ⟨l, hl, mid', hmid, hnear'⟩
            rcases List.mem_cons.mp hl with rfl | hl
            · rw [hm] at hmid
              injection hmid with hmid
              injection hmid with hmid
              subst hmid
              exact absurd hnear' hnear
            · exact ⟨l, hl, mid', hmid, hnear'⟩

theorem firstDedup_congr :
    ∀ (l s1 s2 : List String), (∀ x, x ∈ s1 ↔ x ∈ s2) →
      firstDedup s1 l = firstDedup s2 l := by
  intro l
  induction l with
  | nil => intro s1 s2 _; rfl
  | cons x xs ih =>
    intro s1 s2 h
    simp only [firstDedup]
    by_cases hx : x ∈ s1
    · rw [if_pos hx, if_pos ((h x).mp hx)]
      exact ih s1 s2 h
    · rw [if_neg hx, if_neg (fun hc => hx ((h x).mpr hc))]
      rw [ih (x :: s1) (x :: s2) fun y => by simp [h y]]

theorem firstDedupLinks_congr :
    ∀ (l : List Link) (s1 s2 : List String), (∀ x, x ∈ s1 ↔ x ∈ s2) →
      firstDedupLinks s1 l = firstDedupLinks s2 l := by
  intro l
  induction l with
  | nil => intro s1 s2 _; rfl
  | cons x xs ih =>
    intro s1 s2 h
    simp only [firstDedupLinks]
    by_cases hx : x.LinkID ∈ s1
    · rw [if_pos hx, if_pos ((h x.LinkID).mp hx)]
      exact ih s1 s2 h
    · rw [if_neg hx, if_neg (fun hc => hx ((h x.LinkID).mpr hc))]
      rw [ih (x.LinkID :: s1) (x.LinkID :: s2) fun y => by simp [h y]]

theorem firstDedup_unres_filterMap (idx : List (String × Link)) (lid : String)
    (hun : lookupIndex idx lid = Option.none) :
    ∀ (l : List String) (seen : List String),
      (firstDedup (lid :: seen) l).filterMap (lookupIndex idx) =
        (firstDedup seen l).filterMap (lookupIndex idx) := by
  intro l
  induction l with
  | nil => intro seen; rfl
  | cons x xs ih =>
    intro seen
    simp only [firstDedup]
    by_cases hxl : x = lid
    · subst hxl
      rw [if_pos (List.mem_cons_self x seen)]
      by_cases hxs : x ∈ seen
      · rw [if_pos hxs]
        exact ih seen
      · rw [if_neg hxs]
        simp only [List.filterMap_cons, hun]
    · by_cases hxs : x ∈ seen
      · rw [if_pos (List.mem_cons_of_mem lid hxs), if_pos hxs]
        exact ih seen
      · have hx1 : x ∉ lid :: seen := by
          intro hc
          rcases List.mem_cons.mp hc with h1 | h2
          · exact hxl h1
          · exact hxs h2
        rw [if_neg hx1, if_neg hxs]
        have htail : (firstDedup (x :: lid :: seen) xs).filterMap (lookupIndex idx) =
            (firstDedup (x :: seen) xs).filterMap (lookupIndex idx) := by
          rw [firstDedup_congr xs (x :: lid :: seen) (lid :: x :: seen)
            fun y => by simp only [List.mem_cons]; tauto]
          exact ih (x :: seen)
        rw [List.filterMap_cons, List.filterMap_cons, htail]

theorem firstDedup_unres_filter (idx : List (String × Link)) (lid : String)
    (hun : lookupIndex idx lid = Option.none) :
    ∀ (l : List String) (seen : List String),
      (firstDedup (lid :: seen) l).filter (fun s => (lookupIndex idx s).isSome) =
        (firstDedup seen l).filter fun s => (lookupIndex idx s).isSome := by
  intro l
  induction l with
  | nil => intro seen; rfl
  | cons x xs ih =>
    intro seen
    simp only [firstDedup]
    by_cases hxl : x = lid
    · subst hxl
      rw [if_pos (List.mem_cons_self x seen)]
      by_cases hxs : x ∈ seen
      · rw [if_pos hxs]
        exact ih seen
      · rw [if_neg hxs]
        rw [List.filter_cons]
        simp only [hun, Option.isSome_none, Bool.false_eq_true, if_false]
    · by_cases hxs : x ∈ seen
      · rw [if_pos (List.mem_cons_of_mem lid hxs), if_pos hxs]
        exact ih seen
      · have hx1 : x ∉ lid :: seen := by
          intro hc
          rcases List.mem_cons.mp hc with h1 | h2
          · exact hxl h1
          · exact hxs h2
        rw [if_neg hx1, if_neg hxs]
        have htail : (firstDedup (x :: lid :: seen) xs).filter
              (fun s => (lookupIndex idx s).isSome) =
            (firstDedup (x :: seen) xs).filter
              fun s => (lookupIndex idx s).isSome := by
          rw [firstDedup_congr xs (x :: lid :: seen) (lid :: x :: seen)
            fun y => by simp only [List.mem_cons]; tauto]
          exact ih (x :: seen)
        rw [List.filter_cons, List.filter_cons, htail]

theorem addNextFold (current : Link) (rd : RouteData) :
    ∀ (idxs : List Nat) (st : WindowState),
      idxs.foldl (addNext current rd) st =
        (st.1 ++ firstDedupLinks st.2
            (((idxs.filterMap (nextAt current rd)).filter fun l => l.LinkID ≠ "")),
         st.2 ++ (firstDedupLinks st.2
            ((idxs.filterMap (nextAt current rd)).filter fun l =>
              l.LinkID ≠ "")).map (·.LinkID)) := by
  intro idxs
  induction idxs with
  | nil => intro st; simp [firstDedupLinks]
  | cons i is ih =>
    intro st
    rw [List.foldl_cons, List.filterMap_cons]
    cases hni : nextAt current rd i with
    | none =>
      have hstep : addNext current rd st i = st := by simp [addNext, hni]
      rw [hstep]
      exact ih st
    | some l =>
      rw [List.filter_cons]
      by_cases hid : l.LinkID = ""
      · have hstep : addNext current rd st i = st := by
          simp [addNext, hni, hid]
        rw [hstep, if_neg (by simp [hid])]
        exact ih st
      · rw [if_pos (by simp [hid])]
        simp only [firstDedupLinks]
        by_cases hmem : l.LinkID ∈ st.2
        · have hstep : addNext current rd st i = st := by
            simp [addNext, hni, hmem]
          rw [hstep, if_pos hmem]
          exact ih st
        · have hstep : addNext current rd st i =
              (st.1 ++ [l], st.2 ++ [l.LinkID]) := by
            simp [addNext, hni, hid, hmem]
          rw [hstep, if_neg hmem, ih]
          rw [firstDedupLinks_congr _ (st.2 ++ [l.LinkID]) (l.LinkID :: st.2)
            fun y => by simp [List.mem_append, or_comm]]
          simp [List.append_assoc]

theorem addNeighborFold (idx : List (String × Link)) :
    ∀ (stream : List String) (st : WindowState),
      stream.foldl (addNeighbor idx) st =
        (st.1 ++ (firstDedup st.2 stream).filterMap (lookupIndex idx),
         st.2 ++ (firstDedup st.2 stream).filter fun lid =>
           (lookupIndex idx lid).isSome) := by
  intro stream
  induction stream with
  | nil => intro st; simp [firstDedup]
  | cons x xs ih =>
    intro st
    rw [List.foldl_cons]
    simp only [firstDedup]
    by_cases hmem : x ∈ st.2
    · have hstep : addNeighbor idx st x = st := by simp [addNeighbor, hmem]
      rw [hstep, if_pos hmem]
      exact ih st
    · rw [if_neg hmem]
      cases hlk : lookupIndex idx x with
      | none =>
        have hstep : addNeighbor idx st x = st := by
          simp [addNeighbor, hmem, hlk]
        rw [hstep, ih st, List.filterMap_cons, List.filter_cons]
        simp only [hlk, Option.isSome_none, Bool.false_eq_true, if_false]
        rw [firstDedup_unres_filterMap idx x hlk xs st.2,
            firstDedup_unres_filter idx x hlk xs st.2]
      | some e =>
        have hstep : addNeighbor idx st x = (st.1 ++ [e], st.2 ++ [x]) := by
          simp [addNeighbor, hmem, hlk]
        rw [hstep, ih, List.filterMap_cons, List.filter_cons]
        simp only [hlk, Option.isSome_some, if_true]
        rw [firstDedup_congr xs (st.2 ++ [x]) (x :: st.2)
          fun y => by simp [List.mem_append, or_comm]]
        simp [List.append_assoc]

theorem addLinkNeighborsFold (idx : List (String × Link)) :
    ∀ (links : List Link) (st : WindowState),
      links.foldl (addLinkNeighbors idx) st =
        (links.flatMap fun l =>
          l.inbound_link_ids ++ l.outbound_link_ids).foldl (addNeighbor idx) st := by
  intro links
  induction links with
  | nil => intro st; rfl
  | cons l ls ih =>
    intro st
    rw [List.foldl_cons, ih, List.flatMap_cons, List.foldl_append,
        List.foldl_append]
    rfl

/-! ### Claim theorems -/

/-- Claim C7, counterexample: the claim asserts the band field is used
directly whenever present, for every integer band 0-8. For a stored band of 0
the Python `or` chain treats the field as absent: with `SpeedBand = 0` and
speeds 10/70 the code infers band 4 from the midpoint instead of returning 0,
and with `SpeedBand = 0` alone it returns nothing at all. -/
theorem claim_C7_counterexample :
    extract_speedband_from_data
        { SpeedBand := some 0, minspeed := some 10, maxspeed := some 70 } = some 4 ∧
      (some (4 : ℤ) ≠ some (0 : ℤ)) ∧
      extract_speedband_from_data { SpeedBand := some 0 } = Option.none := by
  refine ⟨?_, by decide, ?_⟩ <;>
    norm_num [extract_speedband_from_data, orFalsyInt, orFalsyRat, to_float]

/-- Claim C7, amended: the band is taken directly from the Python `or` chain
over the two band spellings — so a stored 0 in `SpeedBand` alone counts as
absent — and otherwise, when the max speed is positive, the band is the
midpoint of min/max speed divided by 10, floored and clamped to 0..8 (the
fixed 10 km/h buckets); an observation from which neither derivation
succeeds contributes nothing. -/
theorem claim_C7_amended (d : SpeedData) :
    extract_speedband_from_data d = extractSpecAmended d := by
  rcases hsb : orFalsyInt d.SpeedBand d.speedband with _ | sb
  · simp only [extract_speedband_from_data, extractSpecAmended, hsb]
    by_cases h : 0 < to_float (orFalsyRat d.maxspeed d.MaximumSpeed)
    · rw [if_pos h, if_pos h]
      exact congrArg some (bucket_eq_clamp _)
    · rw [if_neg h, if_neg h]
  · simp only [extract_speedband_from_data, extractSpecAmended, hsb]

/-- Claim C9: segment construction on a record with a `None` coordinate
value. The code catches only `ValueError` and `KeyError`; `float(None)`
raises `TypeError`, which escapes `create_link_linestring` and aborts
`find_links_in_buffer` entirely, while a missing or non-numeric-string
coordinate is skipped as the claim describes. The claim (and spec section 7)
says a `None` value is never fatal; the code contradicts that intent (its
sibling `build_link_geometry` in correlate_traffic_data.py catches
`TypeError`). -/
theorem claim_C9_code_bug :
    create_link_linestring
        { LinkID := "L1", StartLat := some PyVal.none,
          StartLon := some (PyVal.num 1), EndLat := some (PyVal.num 2),
          EndLon := some (PyVal.num 3) } = .error .typeError ∧
      create_link_linestring
        { LinkID := "L2", StartLat := some PyVal.strBad,
          StartLon := some (PyVal.num 1), EndLat := some (PyVal.num 2),
          EndLon := some (PyVal.num 3) } = .ok Option.none ∧
      create_link_linestring
        { LinkID := "L3", StartLon := some (PyVal.num 1),
          EndLat := some (PyVal.num 2), EndLon := some (PyVal.num 3) } =
        .ok Option.none ∧
      find_links_in_buffer (fun _ => true) false
        [{ LinkID := "G", StartLat := some (PyVal.num 1),
           StartLon := some (PyVal.num 2), EndLat := some (PyVal.num 3),
           EndLon := some (PyVal.num 4) },
         { LinkID := "L2", StartLat := some PyVal.strBad,
           StartLon := some (PyVal.num 1), EndLat := some (PyVal.num 2),
           EndLon := some (PyVal.num 3) }] =
        .ok [{ LinkID := "G", StartLat := some (PyVal.num 1),
               StartLon := some (PyVal.num 2), EndLat := some (PyVal.num 3),
               EndLon := some (PyVal.num 4) }] ∧
      find_links_in_buffer (fun _ => true) false
        [{ LinkID := "G", StartLat := some (PyVal.num 1),
           StartLon := some (PyVal.num 2), EndLat := some (PyVal.num 3),
           EndLon := some (PyVal.num 4) },
         { LinkID := "L1", StartLat := some PyVal.none,
           StartLon := some (PyVal.num 1), EndLat := some (PyVal.num 2),
           EndLon := some (PyVal.num 3) }] = .error .typeError := by
  refine ⟨rfl, rfl, rfl, ?_, ?_⟩ <;> rfl

/-- Claim C2: for every `min_history_length ≥ 1` and every observation map,
`build_speedband_history` returns exactly `min_history_length` integers; with
no usable observation the result is all 3s (so `[3,3,3,3,3]` at the default
length 5); and a single usable observation with band `b` yields the constant
sequence of `b` (so band 6 at length 5 yields `[6,6,6,6,6]`), by padding with
the last collected value. -/
theorem claim_C2 (target current : Link) (next_links : List Link)
    (sb : List (String × SpeedData)) (m : Nat) (hm : 1 ≤ m) :
    (build_speedband_history target current next_links sb m).length = m ∧
      (sb = [] →
        build_speedband_history target current next_links sb m =
          List.replicate m 3) ∧
      (∀ i d b, sb = [(i, d)] → extract_speedband_from_data d = some b →
        i ∈ dedupTruthy [] (candidateIds target current next_links) →
        build_speedband_history target current next_links sb m =
          List.replicate m b) := by
  refine ⟨?_, ?_, ?_⟩
  · rcases hh : collectHistory sb m
        (dedupTruthy [] (candidateIds target current next_links)) [] with _ | ⟨h, t⟩
    · simp [build_speedband_history, hh]
    · have hle : (h :: t).length ≤ m := by
        have h2 := collectHistory_length_le sb m
          (dedupTruthy [] (candidateIds target current next_links)) []
          (by simpa using hm)
        rw [hh] at h2
        exact h2
      simp only [build_speedband_history, hh, List.length_append,
        List.length_replicate]
      omega
  · intro hsb
    subst hsb
    have hcol : collectHistory [] m
        (dedupTruthy [] (candidateIds target current next_links)) [] = [] :=
      collectHistory_skip [] m _ [] fun _ _ => rfl
    simp [build_speedband_history, hcol]
  · intro i d b hsb hex hmem
    subst hsb
    have hcol := collectHistory_single i d b hex m hm _ hmem
    simp only [build_speedband_history, hcol, List.length_singleton,
      List.getLast_singleton, List.singleton_append]
    rw [← List.replicate_succ, show m - 1 + 1 = m from by omega]

/-- Witness for claim C2 at a concrete input: a single observation with band
6 and history length 5 yields `[6,6,6,6,6]`. -/
theorem claim_C2_witness :
    build_speedband_history { inbound_link_ids := ["T1"] } {} []
        [("T1", { SpeedBand := some 6 })] 5 = List.replicate 5 6 :=
  (claim_C2 { inbound_link_ids := ["T1"] } {} [] [("T1", { SpeedBand := some 6 })] 5
      (by norm_num)).2.2 "T1" { SpeedBand := some 6 } 6 rfl (by decide) (by decide)

/-- Claim C3: the collection phase of `build_speedband_history` walks the
candidate ids in the fixed priority order (target inbound neighbours, current
link, target link, next links in route order, target outbound neighbours),
deduplicated preserving first occurrence; it appends a derived band only when
it differs from the immediately preceding appended value, and stops as soon
as `min_history_length` values are collected — equivalently, it computes the
first `min_history_length` values of the adjacent-duplicate-free band stream
(`List.destutter (· ≠ ·)`) over the claim walk `claimOrderedIds`. Stated for
nonempty link ids, since the walk drops falsy ids. -/
theorem claim_C3 (target current : Link) (next_links : List Link)
    (sb : List (String × SpeedData)) (m : Nat) (hm : 1 ≤ m)
    (hin : ∀ x ∈ target.inbound_link_ids, x ≠ "")
    (hcur : current.LinkID ≠ "") (htar : target.LinkID ≠ "")
    (hnext : ∀ l ∈ next_links, l.LinkID ≠ "")
    (hout : ∀ x ∈ target.outbound_link_ids, x ≠ "") :
    collectHistory sb m (dedupTruthy [] (candidateIds target current next_links)) [] =
      ((bandStream sb (claimOrderedIds target current next_links)).destutter
          (· ≠ ·)).take m := by
  have hall : ∀ x ∈ target.inbound_link_ids ++ [current.LinkID] ++
      [target.LinkID] ++ next_links.map (·.LinkID) ++ target.outbound_link_ids,
      x ≠ "" := by
    intro x hx
    simp only [List.mem_append, List.mem_singleton, List.mem_map] at hx
    rcases hx with ((((h | h) | h) | h) | h)
    · exact hin x h
    · exact h ▸ hcur
    · exact h ▸ htar
    · obtain ⟨l, hl, rfl⟩ := h
      exact hnext l hl
    · exact hout x h
  rw [candidateIds_all_present target current next_links hcur htar hnext]
  rw [dedupTruthy_eq_firstDedup _ [] hall]
  rw [collectHistory_destutter sb m hm]
  rfl

/-- Witness for claim C3 at a concrete input: two observations, one shared by
two candidate ids, showing dedup, suppression and early stop at length 2. -/
theorem claim_C3_witness :
    collectHistory [("I1", { SpeedBand := some 2 }), ("C", { SpeedBand := some 7 })] 2
        (dedupTruthy []
          (candidateIds { LinkID := "T", inbound_link_ids := ["I1"] }
            { LinkID := "C" } [{ LinkID := "N" }])) [] =
      ((bandStream [("I1", { SpeedBand := some 2 }), ("C", { SpeedBand := some 7 })]
            (claimOrderedIds { LinkID := "T", inbound_link_ids := ["I1"] }
              { LinkID := "C" } [{ LinkID := "N" }])).destutter (· ≠ ·)).take 2 :=
  claim_C3 { LinkID := "T", inbound_link_ids := ["I1"] } { LinkID := "C" }
    [{ LinkID := "N" }] _ 2 (by norm_num) (by decide) (by decide) (by decide)
    (by decide) (by decide)

/-- Claim C6: `get_current_link` selects the first link of strictly minimal
angular (unprojected-coordinate) point-to-segment distance among the links
with usable geometry (so ties go to the first-seen link), and returns `none`
exactly when no link has usable geometry. The selection is fully determined
by `firstMin` over the candidate distances, so the diagnostic top-5 shortlist
(`locatorShortlist`, which is only printed) has no effect on it. -/
theorem claim_C6 (lat lon : ℚ) (links : List Link) :
    get_current_link lat lon links =
        (firstMin (locatorCands lat lon links)).map (·.1) ∧
      (get_current_link lat lon links = Option.none ↔
        ∀ link ∈ links, validSeg link = Option.none) ∧
      ∀ link, get_current_link lat lon links = some link →
        ∃ seg, validSeg link = some seg ∧
          (∀ l' ∈ links, ∀ s', validSeg l' = some s' →
            distSqPointSeg (lon, lat) seg ≤ distSqPointSeg (lon, lat) s') ∧
          ∃ pre post,
            locatorCands lat lon links =
              pre ++ (link, distSqPointSeg (lon, lat) seg) :: post ∧
            ∀ c ∈ pre, distSqPointSeg (lon, lat) seg < c.2 := by
  have hfun : get_current_link lat lon links =
      (firstMin (locatorCands lat lon links)).map (·.1) := by
    unfold get_current_link
    rw [locatorScan_none]
  refine ⟨hfun, ?_, ?_⟩
  · rw [hfun]
    constructor
    · intro h link hlink
      have h0 : firstMin (locatorCands lat lon links) = Option.none := by
        cases hfm : firstMin (locatorCands lat lon links) with
        | none => rfl
        | some c => rw [hfm] at h; cases h
      have hnil : locatorCands lat lon links = [] := firstMin_eq_none.mp h0
      have := List.filterMap_eq_nil.mp hnil link hlink
      cases hseg : validSeg link with
      | none => rfl
      | some s => rw [hseg] at this; cases this
    · intro h
      have hnil : locatorCands lat lon links = [] := by
        apply List.filterMap_eq_nil.mpr
        intro link hlink
        rw [h link hlink]
        rfl
      rw [hnil]
      rfl
  · intro link hsel
    rw [hfun] at hsel
    cases hfm : firstMin (locatorCands lat lon links) with
    | none => rw [hfm] at hsel; cases hsel
    | some c =>
      rw [hfm] at hsel
      simp only [Option.map_some', Option.some.injEq] at hsel
      have hmem := firstMin_mem hfm
      obtain ⟨l0, hl0, hmap⟩ := List.mem_filterMap.mp hmem
      cases hseg : validSeg l0 with
      | none => rw [hseg] at hmap; cases hmap
      | some s =>
        rw [hseg] at hmap
        simp only [Option.map_some', Option.some.injEq] at hmap
        have hc1 : c.1 = l0 := by rw [← hmap]
        have hc2 : c.2 = distSqPointSeg (lon, lat) s := by rw [← hmap]
        have hl0link : l0 = link := by rw [← hc1]; exact hsel
        subst hl0link
        refine ⟨s, hseg, ?_, ?_⟩
        · intro l' hl' s' hs'
          have hin : (l', distSqPointSeg (lon, lat) s') ∈
              locatorCands lat lon links := by
            apply List.mem_filterMap.mpr
            exact ⟨l', hl', by rw [hs']; rfl⟩
          have := firstMin_le hfm _ hin
          rw [hc2] at this
          exact this
        · obtain ⟨pre, post, heq, hpre⟩ := firstMin_first hfm
          refine ⟨pre, post, ?_, ?_⟩
          · rw [heq, ← hmap]
          · intro x hx
            rw [← hc2]
            exact hpre x hx

/-- Witness for claim C6: with the fix at the origin, the locator selects the
equatorial fixture link `locA` (distance 0) over the distant `locB`, and that
selection is minimal and first among the candidates. -/
theorem claim_C6_witness :
    ∃ seg, validSeg locA = some seg ∧
      (∀ l' ∈ [locA, locB], ∀ s', validSeg l' = some s' →
        distSqPointSeg ((0 : ℚ), (0 : ℚ)) seg ≤ distSqPointSeg (0, 0) s') ∧
      ∃ pre post,
        locatorCands 0 0 [locA, locB] =
          pre ++ (locA, distSqPointSeg (0, 0) seg) :: post ∧
        ∀ c ∈ pre, distSqPointSeg (0, 0) seg < c.2 :=
  (claim_C6 0 0 [locA, locB]).2.2 locA (by
    rw [(claim_C6 0 0 [locA, locB]).1]
    norm_num [locatorCands, validSeg, create_link_linestring, linkCoords, pyFloat,
      locA, locB, List.filterMap_cons, firstMin, distSqPointSeg])

/-- Claim C5: over a candidate set with distinct ids, B is in A's
outbound ids iff the haversine distance from A's end point to B's start
point is at most the buffer (boundary inclusive; default 5 m), dually for
inbound ids, and the two relations are symmetric. The haversine formula is
symmetric in its two points, which enters as the hypothesis `hsym`. -/
theorem claim_C5 (hav : ℚ → ℚ → ℚ → ℚ → ℚ)
    (hsym : ∀ a b c d, hav a b c d = hav c d a b)
    (links : List Link) (buffer : ℚ) (A B : Link)
    (hnd : (links.map Link.LinkID).Nodup) (hA : A ∈ links) (hB : B ∈ links)
    (hne : A.LinkID ≠ B.LinkID) (ae bs : ℚ × ℚ)
    (hAe : endCoords A = .ok ae) (hBs : startCoords B = .ok bs)
    (outA inB : List String)
    (houtA : find_outbound_links hav A links buffer = .ok outA)
    (hinB : find_inbound_links hav B links buffer = .ok inB) :
    (B.LinkID ∈ outA ↔ hav ae.1 ae.2 bs.1 bs.2 ≤ buffer) ∧
      (A.LinkID ∈ inB ↔ hav ae.1 ae.2 bs.1 bs.2 ≤ buffer) ∧
      (B.LinkID ∈ outA ↔ A.LinkID ∈ inB) := by
  have hinj := List.inj_on_of_nodup_map hnd
  simp only [find_outbound_links, hAe] at houtA
  simp only [find_inbound_links, hBs] at hinB
  have hout := outboundLoop_mem hav A.LinkID ae buffer links outA houtA B.LinkID
  have hin := inboundLoop_mem hav B.LinkID bs buffer links inB hinB A.LinkID
  have h1 : B.LinkID ∈ outA ↔ hav ae.1 ae.2 bs.1 bs.2 ≤ buffer := by
    rw [hout]
    constructor
    · rintro ⟨l, hl, hlid, _, s', hs', hpm⟩
      have hlB : l = B := hinj hl hB hlid
      subst hlB
      rw [hBs] at hs'
      injection hs' with hs'
      subst hs'
      simpa [points_match] using hpm
    · intro hle
      exact ⟨B, hB, rfl, fun hc => hne hc.symm, bs, hBs,
        by simpa [points_match] using hle⟩
  have h2 : A.LinkID ∈ inB ↔ hav ae.1 ae.2 bs.1 bs.2 ≤ buffer := by
    rw [hin]
    constructor
    · rintro ⟨l, hl, hlid, _, s', hs', hpm⟩
      have hlA : l = A := hinj hl hA hlid
      subst hlA
      rw [hAe] at hs'
      injection hs' with hs'
      subst hs'
      simp only [points_match] at hpm
      rw [hsym bs.1 bs.2 ae.1 ae.2] at hpm
      exact of_decide_eq_true hpm
    · intro hle
      refine ⟨A, hA, rfl, hne, ae, hAe, ?_⟩
      simp only [points_match]
      rw [hsym bs.1 bs.2 ae.1 ae.2]
      exact decide_eq_true hle
  exact ⟨h1, h2, h1.trans h2.symm⟩

/-- Witness for claim C5 at a concrete input: the fixtures `adjA`/`adjB`
(A ends exactly where B starts), with the distance function instantiated by
the constant-zero symmetric function, give outbound `["B"]` for A and
inbound `["A"]` for B at the default 5 m buffer. -/
theorem claim_C5_witness :
    ((adjB.LinkID ∈ ["B"]) ↔ (0 : ℚ) ≤ 5) ∧
      ((adjA.LinkID ∈ ["A"]) ↔ (0 : ℚ) ≤ 5) ∧
      ((adjB.LinkID ∈ ["B"]) ↔ (adjA.LinkID ∈ ["A"])) :=
  claim_C5 (fun _ _ _ _ => 0) (fun _ _ _ _ => rfl) [adjA, adjB] 5 adjA adjB
    (by decide) (by decide) (by decide) (by decide) (1, 1) (1, 1) (by rfl)
    (by rfl) ["B"] ["A"] (by rfl) (by rfl)

/-- Claim C4: for a non-degenerate route, the `order` components of
`order_links_along_route` are exactly `0, 1, 2, ...` (strictly increasing),
the `distance_along_route` components are non-decreasing, and links with
equal projected midpoint distances keep their relative input order: for every
distance value, the ordered sublist at that distance equals the corresponding
sublist of the unsorted positions (stability of the sort). -/
theorem claim_C4 (projectAlong : ℚ × ℚ → ℚ) (links : List Link)
    (positions : List (Link × ℚ)) (out : List (Link × ℚ × Nat))
    (hpos : linkPositions projectAlong links = .ok positions)
    (hout : order_links_along_route projectAlong false links = .ok out) :
    ((out.map fun t => t.2.2) = List.range out.length) ∧
      ((out.map fun t => t.2.1).Pairwise (· ≤ ·)) ∧
      (∀ d : ℚ, ((out.filter fun t => decide (t.2.1 = d)).map fun t => (t.1, t.2.1)) =
        positions.filter fun p => decide (p.2 = d)) := by
  simp only [order_links_along_route, Bool.false_eq_true, if_false, hpos] at hout
  injection hout with hout
  subst hout
  set sorted := positions.mergeSort fun a b => decide (a.2 ≤ b.2) with hsorted
  refine ⟨?_, ?_, ?_⟩
  · rw [List.map_map, List.length_map]
    have h1 : ((fun t : Link × ℚ × Nat => t.2.2) ∘
        fun p : Nat × (Link × ℚ) => (p.2.1, p.2.2, p.1)) = Prod.fst := rfl
    rw [h1, List.enum_map_fst, List.enum_length]
  · rw [List.map_map]
    have h1 : ((fun t : Link × ℚ × Nat => t.2.1) ∘
        fun p : Nat × (Link × ℚ) => (p.2.1, p.2.2, p.1)) =
        (fun c : Link × ℚ => c.2) ∘ Prod.snd := rfl
    rw [h1, ← List.map_map, List.enum_map_snd]
    rw [List.pairwise_map]
    have hpw : sorted.Pairwise fun a b => decide (a.2 ≤ b.2) = true := by
      apply List.sorted_mergeSort
      · intro a b c h1 h2
        simp only [decide_eq_true_eq] at *
        exact le_trans h1 h2
      · intro a b
        rcases le_total a.2 b.2 with h | h <;> simp [h]
    exact hpw.imp fun h => of_decide_eq_true h
  · intro d
    rw [List.filter_map, List.map_map]
    have h1 : ((fun t : Link × ℚ × Nat => decide (t.2.1 = d)) ∘
        fun p : Nat × (Link × ℚ) => (p.2.1, p.2.2, p.1)) =
        (fun c : Link × ℚ => decide (c.2 = d)) ∘ Prod.snd := rfl
    have h2 : ((fun t : Link × ℚ × Nat => (t.1, t.2.1)) ∘
        fun p : Nat × (Link × ℚ) => (p.2.1, p.2.2, p.1)) = Prod.snd := rfl
    rw [h1, h2, ← List.filter_map, List.enum_map_snd]
    exact mergeSort_filter_key positions d

/-- Witness for claim C4 at a concrete input: two links with projected
midpoint distances 1 and 5 (projection = longitude of the midpoint) are
ordered 0, 1 with non-decreasing distances and stable per-distance
sublists. -/
theorem claim_C4_witness :
    (([(ordL1, (1 : ℚ), (0 : Nat)), (ordL2, (5 : ℚ), 1)].map fun t => t.2.2) =
        List.range ([(ordL1, (1 : ℚ), (0 : Nat)), (ordL2, (5 : ℚ), 1)]).length) ∧
      (([(ordL1, (1 : ℚ), (0 : Nat)), (ordL2, (5 : ℚ), 1)].map
          fun t => t.2.1).Pairwise (· ≤ ·)) ∧
      (∀ d : ℚ,
        (([(ordL1, (1 : ℚ), (0 : Nat)), (ordL2, (5 : ℚ), 1)].filter
            fun t => decide (t.2.1 = d)).map fun t => (t.1, t.2.1)) =
          [(ordL1, (1 : ℚ)), (ordL2, (5 : ℚ))].filter fun p => decide (p.2 = d)) := by
  have hpos : linkPositions (fun p => p.1) [ordL1, ordL2] =
      .ok [(ordL1, (1 : ℚ)), (ordL2, (5 : ℚ))] := by
    norm_num [linkPositions, create_link_linestring, linkCoords, pyFloat, ordL1,
      ordL2, Bind.bind, Except.bind, pure, Except.pure]
  have hms : ([(ordL1, (1 : ℚ)), (ordL2, (5 : ℚ))].mergeSort
      fun a b => decide (a.2 ≤ b.2)) = [(ordL1, (1 : ℚ)), (ordL2, (5 : ℚ))] :=
    List.mergeSort_of_sorted (by decide)
  have hout : order_links_along_route (fun p => p.1) false [ordL1, ordL2] =
      .ok [(ordL1, (1 : ℚ), (0 : Nat)), (ordL2, (5 : ℚ), 1)] := by
    simp only [order_links_along_route, Bool.false_eq_true, if_false, hpos, hms]
    rfl
  exact claim_C4 (fun p => p.1) [ordL1, ordL2] _ _ hpos hout

/-- Claim C8, counterexample: the claim requires the station lookup to
return a reading only when the nearest station is within the fixed radius
(default 50 m, i.e. 0.05 km). The offline `find_nearest_station_rainfall`
applies no radius at all: with a single reading-bearing station at distance
100 km it still returns that station's reading 7 instead of no reading. -/
theorem claim_C8_counterexample :
    find_nearest_station_rainfall (fun _ _ _ _ => 100) (0, 0, 0, 0)
        [("S", 10, 10)] [("S", 7)] = 7 ∧
      ¬((100 : ℚ) ≤ 5 / 100) := by
  constructor
  · rfl
  · norm_num

/-- Claim C8, amended: the live lookup `get_rainfall_for_link` behaves as the
claim describes — among readings with a positive value and a resolvable
station, the value of the strictly nearest station is returned exactly when
its distance is within the radius, boundary inclusive (default 50 m), else
no reading (0) — while the offline `find_nearest_station_rainfall` applies
NO radius: it returns the nearest reading-bearing station's value at any
distance. Both scans keep the first-seen station on distance ties. -/
theorem claim_C8_amended :
    (∀ (hav : ℚ → ℚ → ℚ → ℚ → ℚ) (link : Link) (data : RainfallData)
        (radius llat llon : ℚ), get_link_midpoint link = some (llat, llon) →
      get_rainfall_for_link hav link (some data) radius =
        ((firstMin ((liveRainCands hav llat llon (buildStationsMap data.stations)
            (data.items.head?.getD [])).filter
              fun c => decide (c.2 ≤ radius))).map (·.1)).getD 0) ∧
      (∀ (havKm : ℚ → ℚ → ℚ → ℚ → ℚ) (geom : ℚ × ℚ × ℚ × ℚ)
          (stations : List (String × ℚ × ℚ)) (readings : List (String × ℚ)),
        find_nearest_station_rainfall havKm geom stations readings =
          match firstMin (offRainCands havKm ((geom.1 + geom.2.2.1) / 2)
              ((geom.2.1 + geom.2.2.2) / 2) stations readings) with
          | Option.none => 0
          | some c => (lookupStr readings c.1).getD 0) := by
  constructor
  · intro hav link data radius llat llon hmid
    simp only [get_rainfall_for_link]
    by_cases hitems : data.items = []
    · rw [if_pos hitems]
      simp [hitems, liveRainCands, firstMin]
    · rw [if_neg hitems]
      by_cases hrd : data.items.head?.getD [] = []
      · rw [if_pos hrd]
        simp [hrd, liveRainCands, firstMin]
      · rw [if_neg hrd]
        simp only [hmid]
        have hB := liveFold_scan hav llat llon radius
          (buildStationsMap data.stations) (data.items.head?.getD [])
          (0, Option.none)
        have hrep0 : repOf ((0 : ℚ), (Option.none : Option ℚ)) = Option.none := rfl
        rw [hrep0, locatorScan_none] at hB
        cases hF : (data.items.head?.getD []).foldl
            (liveStep hav llat llon radius (buildStationsMap data.stations))
            (0, Option.none) with
        | mk v o =>
          rw [hF] at hB
          cases o with
          | none =>
            have h0 := liveFold_none hav llat llon radius
              (buildStationsMap data.stations) (data.items.head?.getD [])
              (0, Option.none) (by rw [hF])
            rw [hF] at h0
            injection h0 with h0v _
            simp only [repOf, Option.map_none'] at hB
            rw [← hB]
            simpa using h0v
          | some dm =>
            simp only [repOf, Option.map_some'] at hB
            rw [← hB]
            rfl
  · intro havKm geom stations readings
    simp only [find_nearest_station_rainfall]
    by_cases hg : stations = [] ∨ readings = []
    · rw [if_pos hg]
      rcases hg with h | h
      · simp [h, offRainCands, firstMin]
      · have hc : offRainCands havKm ((geom.1 + geom.2.2.1) / 2)
            ((geom.2.1 + geom.2.2.2) / 2) stations readings = [] := by
          apply List.filterMap_eq_nil.mpr
          intro s _
          simp [h, lookupStr]
        rw [hc]
        rfl
    · rw [if_neg hg]
      rw [offFold_eq_scan, locatorScan_none]
      cases hfm : firstMin (offRainCands havKm ((geom.1 + geom.2.2.1) / 2)
          ((geom.2.1 + geom.2.2.2) / 2) stations readings) with
      | none => rfl
      | some c =>
        obtain ⟨bsid, bd⟩ := c
        rfl

/-- Witness for claim C8 at a concrete input: one station with a positive
reading resolving at distance 42 (within the default 50 m radius) — the live
lookup matches the nearest-within-radius characterization. -/
theorem claim_C8_witness :
    get_rainfall_for_link (fun _ _ _ _ => 42) ordL1 (some rainFix) 50 =
      ((firstMin ((liveRainCands (fun _ _ _ _ => 42) 1 1
          (buildStationsMap rainFix.stations)
          (rainFix.items.head?.getD [])).filter
            fun c => decide (c.2 ≤ 50))).map (·.1)).getD 0 :=
  claim_C8_amended.1 (fun _ _ _ _ => 42) ordL1 rainFix 50 1 1
    (by norm_num [get_link_midpoint, midCoord, pyTruthy, pyFloatVal, ordL1,
      Bind.bind, Except.bind, pure, Except.pure])

/-- Claim C10, counterexample: the claim says a road-name match in an
incident message marks the link with no distance test. The live path
(`check_incidents_in_links`) performs no road-name matching at all: with an
incident whose message contains the link road name AYE (case-insensitive)
but lying far away (distance function constantly 99999 m), the live check
reports no incident, while the offline `link_has_incident` marks the link on
the same data. -/
theorem claim_C10_counterexample :
    pyIn (pyLower "AYE") (pyLower "JAM ON AYE") = true ∧
      check_incidents_in_links (fun _ _ _ _ => 99999) [incL] [incFix] =
        .ok false ∧
      link_has_incident (fun _ _ _ => 99999) "L" (1, 1, 1, 1) (some "AYE")
        [incOff] (1 / 10) = true := by
  refine ⟨by decide, ?_, by decide⟩
  rfl

/-- Claim C10, amended: road-name matching exists only in the offline
correlation path (`link_has_incident`): a case-insensitive substring match of
the known road name in any incident message marks the link with no distance
computed, and when no message matches, the link is marked iff some incident
is within the point-to-segment distance threshold, default 0.1 km = 100 m,
boundary inclusive. The live path (`check_incidents_in_links`) performs no
road-name matching: it reports an incident iff some incident with
coordinates lies within 50 m (haversine, inclusive) of the MIDPOINT of some
link — not a point-to-segment distance. -/
theorem claim_C10_amended :
    (∀ (segDistKm : ℚ → ℚ → ℚ × ℚ × ℚ × ℚ → ℚ) (link_id : String)
        (geom : ℚ × ℚ × ℚ × ℚ) (road_name : Option String)
        (incidents : List Incident) (thresh : ℚ) (inc : Incident),
      inc ∈ incidents → pyLower (road_name.getD "") ≠ "" →
      pyIn (pyLower (road_name.getD "")) (pyLower inc.Message) = true →
      link_has_incident segDistKm link_id geom road_name incidents thresh = true) ∧
      (∀ (segDistKm : ℚ → ℚ → ℚ × ℚ × ℚ × ℚ → ℚ) (link_id : String)
          (geom : ℚ × ℚ × ℚ × ℚ) (road_name : Option String)
          (incidents : List Incident) (thresh : ℚ),
        (∀ inc ∈ incidents,
          pyIn (pyLower (road_name.getD "")) (pyLower inc.Message) = false) →
        (link_has_incident segDistKm link_id geom road_name incidents thresh = true ↔
          ∃ inc ∈ incidents, segDistKm inc.Latitude inc.Longitude geom ≤ thresh)) ∧
      (∀ (havM : ℚ → ℚ → ℚ → ℚ → ℚ) (links : List Link)
          (incidents : List IncidentRaw),
        (∀ l ∈ links, ∀ e, get_link_midpoint_inc l ≠ .error e) →
        (check_incidents_in_links havM links incidents = .ok true ↔
          ∃ l ∈ links, ∃ mid, get_link_midpoint_inc l = .ok (some mid) ∧
            anyIncidentNear havM mid incidents = true)) := by
  refine ⟨?_, ?_, ?_⟩
  · intro segDistKm link_id geom road_name incidents thresh inc hmem hrn hmatch
    unfold link_has_incident
    rw [if_pos ⟨hrn, List.any_eq_true.mpr ⟨inc, hmem, hmatch⟩⟩]
  · intro segDistKm link_id geom road_name incidents thresh hnone
    unfold link_has_incident
    rw [if_neg (fun hc => by
      obtain ⟨inc, hmem, hmatch⟩ := List.any_eq_true.mp hc.2
      rw [hnone inc hmem] at hmatch
      cases hmatch)]
    by_cases hemp : incidents = []
    · rw [if_pos hemp]
      subst hemp
      simp
    · rw [if_neg hemp]
      rw [List.any_eq_true]
      constructor
      · rintro ⟨inc, hmem, hd⟩
        exact ⟨inc, hmem, of_decide_eq_true hd⟩
      · rintro ⟨inc, hmem, hd⟩
        exact ⟨inc, hmem, decide_eq_true hd⟩
  · intro havM links incidents h
    unfold check_incidents_in_links
    by_cases hemp : incidents = []
    · rw [if_pos hemp]
      subst hemp
      constructor
      · intro hc
        cases hc
      · rintro ⟨l, _, mid, _, hnear⟩
        rw [show anyIncidentNear havM mid [] = false from rfl] at hnear
        cases hnear
    · rw [if_neg hemp]
      exact checkLoop_iff havM incidents links h

/-- Witness for claim C10 at concrete inputs: the offline path marks a link
on a road-name message match with the distance function constantly zero or
irrelevant; the offline fallback and the live midpoint check instantiate the
characterizations. -/
theorem claim_C10_witness :
    (link_has_incident (fun _ _ _ => 0) "L" (1, 1, 1, 1) (some "AYE") [incOff]
        (1 / 10) = true) ∧
      (link_has_incident (fun _ _ _ => 0) "L" (1, 1, 1, 1) (some "ZZZ") [incOff]
          (1 / 10) = true ↔
        ∃ inc ∈ [incOff], (fun _ _ _ => (0 : ℚ)) inc.Latitude inc.Longitude
            (1, 1, 1, 1) ≤ 1 / 10) ∧
      (check_incidents_in_links (fun _ _ _ _ => 0) [incL] [incFix] = .ok true ↔
        ∃ l ∈ [incL], ∃ mid, get_link_midpoint_inc l = .ok (some mid) ∧
          anyIncidentNear (fun _ _ _ _ => 0) mid [incFix] = true) :=
  ⟨claim_C10_amended.1 (fun _ _ _ => 0) "L" (1, 1, 1, 1) (some "AYE") [incOff]
      (1 / 10) incOff (by decide) (by decide) (by decide),
    claim_C10_amended.2.1 (fun _ _ _ => 0) "L" (1, 1, 1, 1) (some "ZZZ") [incOff]
      (1 / 10) (by decide),
    claim_C10_amended.2.2 (fun _ _ _ _ => 0) [incL] [incFix] (by
      intro l hl e
      rw [List.mem_singleton] at hl
      subst hl
      simp [get_link_midpoint_inc, linkCoords, pyFloat, incL, Bind.bind,
        Except.bind, pure, Except.pure])⟩

/-- Counterexample to claim C1: the claim allows only the current link, the
next links, and the resolvable inbound/outbound neighbour ids of the TARGET
link. On a 2-link route where the CURRENT link has an off-route inbound
neighbour `X` (resolvable in the index) and the target link `B` has none,
`get_links_for_analysis` nevertheless returns `X`: the code collects the
neighbours of every link gathered so far, not only the target's. -/
theorem claim_C1_counterexample :
    "X" ∈ (get_links_for_analysis cexA cexRd 3).map Link.LinkID ∧
      "X" ∉ windowClaimIds cexA cexRd 3 := by
  decide

/-- Claim C1, amended: the analysis window equals, exactly and in order, the
current link's index entry (when its id is nonempty and resolves), then the
up-to-K existing next links with new nonempty ids, then the index entries of
the first occurrences of the inbound-then-outbound neighbour ids of EVERY
base link (current and each next link, in window order) that resolve in the
index and are not already seen. -/
theorem claim_C1_amended (current : Link) (rd : RouteData) (K : Nat) :
    get_links_for_analysis current rd K = windowSpec current rd K := by
  have hst0 : (if current.LinkID ≠ "" then
        match lookupIndex rd.link_index current.LinkID with
        | some entry => ([entry], [current.LinkID])
        | Option.none => (([] : List Link), ([] : List String))
      else ([], [])) =
      ((windowCurrent current rd, windowCurrentIds current rd) : WindowState) := by
    by_cases h : current.LinkID = ""
    · simp [windowCurrent, windowCurrentIds, h]
    · cases hlk : lookupIndex rd.link_index current.LinkID with
      | none => simp [windowCurrent, windowCurrentIds, h, hlk]
      | some e => simp [windowCurrent, windowCurrentIds, h, hlk]
  simp only [get_links_for_analysis]
  rw [hst0, addNextFold, addLinkNeighborsFold, addNeighborFold]
  simp only [windowSpec, windowBase, windowBaseIds, nextCandidates]

end SBS
